import Mathlib

/-!
Verification development for the Ingram tech-data Shopify app.

This file shallowly embeds the algorithmic core of the repository:

* `src/app/services/rate-combiner.server.ts` (`combineRates`,
  `formatRateForShopify`, `getCarrierDisplayName`, `getTransitDescription`);
* `src/app/services/ingram.server.ts` (`buildFreightCacheKey`,
  `requestFreightEstimate` with its in-flight map, and the SKU mapping
  resolver `getIngramMappingsForSkus`);
* `src/app/utils/ttl-cache.server.ts` (`createTtlCache`);
* `src/app/routes/api.cart-estimate.ts` (the `action` handler).

Modelling conventions:

* JavaScript numbers that hold freight charges are modelled as exact
  rationals (`ℚ`); `parseFloat(String(x)) || 0` on an already-numeric value
  is the identity, so charge fields carry the parsed value directly.
  `parseInt(String(x), 10) || 0` on integral transit-day values is likewise
  the identity, modelled as `ℤ`.
* JavaScript `Map` is modelled as an association list in insertion order:
  `Map.set` replaces the value of an existing key in place (keeping its
  position) and appends unknown keys; `Map.delete` removes the single entry
  with the key; iteration follows the list order.  JavaScript `Set` is only
  used for its cardinality and membership here.
* `String.prototype.trim`, `toLowerCase` and `toUpperCase` are modelled
  character-wise (`trimS`, `lowerS`, `upperS`) so that they compute by
  kernel reduction; `Array.prototype.sort` (a stable sort) is modelled by
  `List.insertionSort`, which is stable and produces the ascending order
  the numeric/string comparators in the source request.
* `async` functions are modelled as pure state transformers; the settled
  outcome of an awaited upstream call is passed in as an `Except` argument
  (`.ok` = the promise fulfilled, `.error` = it rejected).
-/

/-! ## Character-level string helpers (JS `trim`, `toLowerCase`, `toUpperCase`) -/

/-- Model of JS `String.prototype.trim`: drop whitespace from both ends. -/
def trimS (s : String) : String :=
  ⟨((s.data.dropWhile Char.isWhitespace).reverse.dropWhile Char.isWhitespace).reverse⟩

/-- Model of JS `String.prototype.toLowerCase` (character-wise). -/
def lowerS (s : String) : String := ⟨s.data.map Char.toLower⟩

/-- Model of JS `String.prototype.toUpperCase` (character-wise). -/
def upperS (s : String) : String := ⟨s.data.map Char.toUpper⟩

/-! ## Association lists with JavaScript `Map` semantics -/

/-- Lookup in an insertion-ordered association list (JS `Map.get`). -/
def lookupA {α : Type} : List (String × α) → String → Option α
  | [], _ => none
  | (k, v) :: rest, key => if k = key then some v else lookupA rest key

/-- JS `Map.set`: replace the value of an existing key in place (the key keeps
its original insertion position); append a fresh key at the back. -/
def mapSet {α : Type} : List (String × α) → String → α → List (String × α)
  | [], key, v => [(key, v)]
  | (k, w) :: rest, key, v =>
    if k = key then (key, v) :: rest else (k, w) :: mapSet rest key v

/-- JS `Map.delete`: remove the (unique) entry with the given key. -/
def eraseKey {α : Type} : List (String × α) → String → List (String × α)
  | [], _ => []
  | (k, w) :: rest, key => if k = key then rest else (k, w) :: eraseKey rest key

theorem lookupA_append {α : Type} (l₁ l₂ : List (String × α)) (k : String) :
    lookupA (l₁ ++ l₂) k =
      match lookupA l₁ k with
      | some v => some v
      | none => lookupA l₂ k := by
  induction l₁ with
  | nil => simp [lookupA]
  | cons p rest ih =>
    obtain ⟨a, b⟩ := p
    by_cases h : a = k <;> simp [lookupA, h, ih]

theorem lookupA_mapSet_self {α : Type} (m : List (String × α)) (k : String) (v : α) :
    lookupA (mapSet m k v) k = some v := by
  induction m with
  | nil => simp [mapSet, lookupA]
  | cons p rest ih =>
    obtain ⟨a, b⟩ := p
    by_cases h : a = k <;> simp [mapSet, lookupA, h, ih]

theorem lookupA_mapSet_ne {α : Type} (m : List (String × α)) (k key : String) (v : α)
    (h : k ≠ key) : lookupA (mapSet m key v) k = lookupA m k := by
  have hne : ¬ key = k := fun hk => h hk.symm
  induction m with
  | nil => simp [mapSet, lookupA, hne]
  | cons p rest ih =>
    obtain ⟨a, b⟩ := p
    by_cases ha : a = key
    · subst ha
      simp [mapSet, lookupA, hne]
    · by_cases hk : a = k <;> simp [mapSet, lookupA, ha, hk, h, hne, ih]

theorem lookupA_eq_none_iff {α : Type} (m : List (String × α)) (k : String) :
    lookupA m k = none ↔ k ∉ m.map Prod.fst := by
  induction m with
  | nil => simp [lookupA]
  | cons p rest ih =>
    obtain ⟨a, b⟩ := p
    by_cases h : a = k
    · subst h
      simp [lookupA]
    · have hka : ¬ k = a := fun hk => h hk.symm
      simp [lookupA, h, hka, ih]

theorem lookupA_of_mem_nodup {α : Type} {m : List (String × α)} {k : String} {v : α}
    (hnd : (m.map Prod.fst).Nodup) (hmem : (k, v) ∈ m) : lookupA m k = some v := by
  induction m with
  | nil => simp at hmem
  | cons p rest ih =>
    obtain ⟨a, b⟩ := p
    simp only [List.map_cons, List.nodup_cons] at hnd
    rcases List.mem_cons.mp hmem with h | h
    · cases h
      simp [lookupA]
    · have hk : a ≠ k := by
        intro hak
        subst hak
        exact hnd.1 (List.mem_map.mpr ⟨(a, v), h, rfl⟩)
      simp [lookupA, hk, ih hnd.2 h]

theorem mem_of_lookupA {α : Type} {m : List (String × α)} {k : String} {v : α}
    (h : lookupA m k = some v) : (k, v) ∈ m := by
  induction m with
  | nil => simp [lookupA] at h
  | cons p rest ih =>
    obtain ⟨a, b⟩ := p
    by_cases ha : a = k
    · subst ha
      simp [lookupA] at h
      simp [h]
    · simp [lookupA, ha] at h
      exact List.mem_cons_of_mem _ (ih h)

theorem mapSet_map_fst {α : Type} (m : List (String × α)) (k : String) (v : α) :
    (mapSet m k v).map Prod.fst =
      if k ∈ m.map Prod.fst then m.map Prod.fst else m.map Prod.fst ++ [k] := by
  induction m with
  | nil => simp [mapSet]
  | cons p rest ih =>
    obtain ⟨a, b⟩ := p
    by_cases h : a = k
    · subst h
      simp [mapSet]
    · have : ¬ k = a := fun hh => h hh.symm
      simp only [mapSet, if_neg h, List.map_cons, List.mem_cons, this, false_or]
      rw [ih]
      by_cases hk : k ∈ rest.map Prod.fst <;> simp [hk]

theorem mapSet_append_of_lookupA_none {α : Type} (l₁ l₂ : List (String × α))
    (k : String) (v : α) (h : lookupA l₁ k = none) :
    mapSet (l₁ ++ l₂) k v = l₁ ++ mapSet l₂ k v := by
  induction l₁ with
  | nil => simp
  | cons p rest ih =>
    obtain ⟨a, b⟩ := p
    by_cases ha : a = k
    · simp [lookupA, ha] at h
    · simp only [lookupA, if_neg ha] at h
      simp [mapSet, ha, ih h]

/-! ## Rate combiner data model (src/app/services/rate-combiner.server.ts) -/

/-- One carrier entry of a distribution's `carrierList`.  The
`estimatedFreightCharge` (`string | number` in the source, read through
`parseFloat(String(.)) || 0`) is modelled as the parsed rational; the
`daysInTransit` (read through `parseInt(String(.), 10) || 0`) as the parsed
integer. -/
structure IngramCarrier where
  carrierCode : String
  shipVia : String
  carrierMode : String
  estimatedFreightCharge : ℚ
  daysInTransit : ℤ
deriving DecidableEq

/-- One warehouse distribution of the upstream freight response (only the
fields `combineRates` reads). -/
structure IngramDistribution where
  shipFromBranchNumber : String
  carrierList : List IngramCarrier
deriving DecidableEq

/-- One element of a combined rate's per-distribution breakdown. -/
structure RateBreakdown where
  branchNumber : String
  charge : ℚ
  daysInTransit : ℤ
deriving DecidableEq

/-- The `CombinedRate` output shape of `combineRates`. -/
structure CombinedRate where
  carrierCode : String
  shipVia : String
  carrierMode : String
  totalCharge : ℚ
  maxDaysInTransit : ℤ
  distributions : List RateBreakdown
  isComplete : Bool
deriving DecidableEq

/-- The per-branch cell of the multi-distribution carrier map:
`{ charge, daysInTransit }`. -/
structure BranchCharge where
  charge : ℚ
  daysInTransit : ℤ
deriving DecidableEq

/-- The value stored in `carrierMap` for one carrier code. -/
structure CarrierAgg where
  shipVia : String
  carrierMode : String
  distributions : List (String × BranchCharge)
deriving DecidableEq

/-- Lines 129-135 of the combiner: keep the lower charge when the same
carrier code appears more than once within one distribution (strict `<`, so
the first occurrence of a minimal charge wins and supplies the transit
days). -/
def upsertLower (branch : String) (charge : ℚ) (transit : ℤ)
    (ds : List (String × BranchCharge)) : List (String × BranchCharge) :=
  match lookupA ds branch with
  | none => ds ++ [(branch, ⟨charge, transit⟩)]
  | some existing =>
    if charge < existing.charge then mapSet ds branch ⟨charge, transit⟩ else ds

/-- Lines 111-136: process one entry of a distribution's carrier list into
the carrier map (skip empty codes; create the aggregate on first sight with
`shipVia || code` and the carrier mode; then upsert this branch's charge). -/
def processCarrier (branch : String) (m : List (String × CarrierAgg))
    (c : IngramCarrier) : List (String × CarrierAgg) :=
  let code := trimS c.carrierCode
  if code = "" then m
  else
    match lookupA m code with
    | none =>
      let sv := if trimS c.shipVia = "" then code else trimS c.shipVia
      m ++ [(code, ⟨sv, trimS c.carrierMode,
        upsertLower branch c.estimatedFreightCharge c.daysInTransit []⟩)]
    | some agg =>
      mapSet m code
        { agg with
          distributions := (upsertLower branch c.estimatedFreightCharge
            c.daysInTransit agg.distributions) }

/-- Process one whole distribution (the inner `for` loop of lines 105-137). -/
def addDistribution (m : List (String × CarrierAgg)) (d : IngramDistribution) :
    List (String × CarrierAgg) :=
  d.carrierList.foldl (processCarrier d.shipFromBranchNumber) m

/-- Lines 105-137: the carrier map built over all distributions. -/
def buildCarrierMap (dists : List IngramDistribution) :
    List (String × CarrierAgg) :=
  dists.foldl addDistribution []

/-- Lines 146-158: sum of this carrier's per-branch charges, accumulated in
map order. -/
def aggTotalCharge (agg : CarrierAgg) : ℚ :=
  agg.distributions.foldl (fun acc p => acc + p.2.charge) 0

/-- Lines 146-158: `Math.max` of the per-branch transit days, starting at 0. -/
def aggMaxDays (agg : CarrierAgg) : ℤ :=
  agg.distributions.foldl (fun acc p => max acc p.2.daysInTransit) 0

/-- Lines 146-158: the per-distribution breakdown pushed for a carrier. -/
def aggBreakdown (agg : CarrierAgg) : List RateBreakdown :=
  agg.distributions.map (fun p => ⟨p.1, p.2.charge, p.2.daysInTransit⟩)

/-- Lines 143-173: build the `CombinedRate` for one carrier map entry, or
drop it when it is incomplete or its total charge is not positive. -/
def combinedOfAgg (total : ℕ) (code : String) (agg : CarrierAgg) :
    Option CombinedRate :=
  if agg.distributions.length = total ∧ 0 < aggTotalCharge agg then
    some ⟨code, agg.shipVia, agg.carrierMode, aggTotalCharge agg,
      aggMaxDays agg, aggBreakdown agg, true⟩
  else none

/-- The ascending-by-`totalCharge` comparator of lines 84 and 176.  JS
`Array.prototype.sort` is stable, which `List.insertionSort` models. -/
def chargeLE (a b : CombinedRate) : Prop := a.totalCharge ≤ b.totalCharge

instance : DecidableRel chargeLE := fun a b =>
  inferInstanceAs (Decidable (a.totalCharge ≤ b.totalCharge))

instance : IsTotal CombinedRate chargeLE :=
  ⟨fun a b => le_total a.totalCharge b.totalCharge⟩

instance : IsTrans CombinedRate chargeLE :=
  ⟨fun _ _ _ hab hbc => le_trans hab hbc⟩

/-- Line 84 / line 176: sort combined rates by total charge, cheapest first. -/
def sortByCharge (l : List CombinedRate) : List CombinedRate :=
  l.insertionSort chargeLE

/-- Lines 63-85: the single-distribution fast path maps a carrier entry
directly to a complete combined rate. -/
def singleRate (branch : String) (c : IngramCarrier) : CombinedRate :=
  ⟨trimS c.carrierCode, trimS c.shipVia, trimS c.carrierMode,
    c.estimatedFreightCharge, c.daysInTransit,
    [⟨branch, c.estimatedFreightCharge, c.daysInTransit⟩], true⟩

/-- `combineRates` (lines 57-177): empty input gives `[]`; a single
distribution takes the fast path (map, drop empty codes and non-positive
charges, sort); two or more distributions aggregate through the carrier map,
keep complete carriers with positive totals, and sort.  The distinct-branch
count models `distributionBranches.size`. -/
def combineRates : List IngramDistribution → List CombinedRate
  | [] => []
  | [d] =>
    sortByCharge
      ((d.carrierList.map (singleRate d.shipFromBranchNumber)).filter
        (fun r => decide (r.carrierCode ≠ "" ∧ 0 < r.totalCharge)))
  | dists =>
    sortByCharge
      ((buildCarrierMap dists).filterMap
        (fun p =>
          combinedOfAgg ((dists.map (·.shipFromBranchNumber)).dedup.length)
            p.1 p.2))

theorem combineRates_two_or_more (dists : List IngramDistribution)
    (h : 2 ≤ dists.length) :
    combineRates dists =
      sortByCharge
        ((buildCarrierMap dists).filterMap
          (fun p =>
            combinedOfAgg ((dists.map (·.shipFromBranchNumber)).dedup.length)
              p.1 p.2)) := by
  match dists with
  | [] => simp at h
  | [d] => simp at h
  | a :: b :: rest => rfl

/-! ## Carrier map invariants -/

/-- The carrier map only ever holds non-empty carrier codes, each at most
once. -/
def GoodKeys (m : List (String × CarrierAgg)) : Prop :=
  (m.map Prod.fst).Nodup ∧ ∀ k ∈ m.map Prod.fst, k ≠ ""

theorem processCarrier_map_fst (b : String) (m : List (String × CarrierAgg))
    (c : IngramCarrier) :
    (processCarrier b m c).map Prod.fst = m.map Prod.fst ∨
      ∃ code, code ≠ "" ∧ code ∉ m.map Prod.fst ∧
        (processCarrier b m c).map Prod.fst = m.map Prod.fst ++ [code] := by
  unfold processCarrier
  by_cases h0 : trimS c.carrierCode = ""
  · exact Or.inl (by simp [h0])
  · cases hl : lookupA m (trimS c.carrierCode) with
    | none =>
      refine Or.inr ⟨trimS c.carrierCode, h0, ?_, ?_⟩
      · exact (lookupA_eq_none_iff m _).mp hl
      · simp [h0, hl]
    | some agg =>
      refine Or.inl ?_
      have hmem : trimS c.carrierCode ∈ m.map Prod.fst := by
        by_contra hno
        rw [(lookupA_eq_none_iff m _).mpr hno] at hl
        exact Option.noConfusion hl
      simp only [h0, if_neg h0, hl, if_false, eq_self_iff_true, if_true,
        if_neg (by exact fun hf => hf : ¬ False)]
      rw [mapSet_map_fst, if_pos hmem]

theorem goodKeys_processCarrier (b : String) (m : List (String × CarrierAgg))
    (c : IngramCarrier) (h : GoodKeys m) : GoodKeys (processCarrier b m c) := by
  rcases processCarrier_map_fst b m c with heq | ⟨code, hc0, hcnot, heq⟩
  · exact ⟨heq ▸ h.1, heq ▸ h.2⟩
  · constructor
    · rw [heq]
      refine List.Nodup.append h.1 (List.nodup_singleton code) ?_
      intro x hx hy
      rw [List.mem_singleton] at hy
      subst hy
      exact hcnot hx
    · rw [heq]
      intro k hk
      rcases List.mem_append.mp hk with hk | hk
      · exact h.2 k hk
      · simpa using (List.mem_singleton.mp hk ▸ hc0)

theorem goodKeys_foldl_processCarrier (b : String) (l : List IngramCarrier) :
    ∀ m, GoodKeys m → GoodKeys (l.foldl (processCarrier b) m) := by
  induction l with
  | nil => exact fun m hm => hm
  | cons c rest ih => exact fun m hm => ih _ (goodKeys_processCarrier b m c hm)

theorem goodKeys_addDistribution (m : List (String × CarrierAgg))
    (d : IngramDistribution) (h : GoodKeys m) : GoodKeys (addDistribution m d) :=
  goodKeys_foldl_processCarrier d.shipFromBranchNumber d.carrierList m h

theorem goodKeys_foldl_addDistribution (dists : List IngramDistribution) :
    ∀ m, GoodKeys m → GoodKeys (dists.foldl addDistribution m) := by
  induction dists with
  | nil => exact fun m hm => hm
  | cons d rest ih => exact fun m hm => ih _ (goodKeys_addDistribution m d hm)

theorem goodKeys_buildCarrierMap (dists : List IngramDistribution) :
    GoodKeys (buildCarrierMap dists) := by
  refine goodKeys_foldl_addDistribution dists [] ?_
  constructor <;> simp

theorem mem_sortByCharge (r : CombinedRate) (l : List CombinedRate) :
    r ∈ sortByCharge l ↔ r ∈ l :=
  (List.perm_insertionSort chargeLE l).mem_iff

/-- C9: for every input (empty, single- or multi-distribution), the sequence
returned by `combineRates` has non-decreasing `totalCharge` from first to
last element, because both code paths end in the ascending stable sort by
total charge. -/
theorem combineRates_totalCharge_sorted (dists : List IngramDistribution) :
    List.Pairwise (fun a b : CombinedRate => a.totalCharge ≤ b.totalCharge)
      (combineRates dists) := by
  have hs : ∀ l : List CombinedRate, List.Pairwise chargeLE (sortByCharge l) :=
    fun l => List.sorted_insertionSort chargeLE l
  match dists with
  | [] => simp [combineRates]
  | [d] => exact hs _
  | a :: b :: rest => exact hs _

/-- C10: every rate returned by `combineRates` has a non-empty carrier code
and a strictly positive total charge; in particular a carrier present in
every distribution whose summed charge is zero is excluded even though it is
complete (second conjunct: concrete two-distribution input whose only
carrier is complete but sums to charge 0, and the output is empty). -/
theorem combineRates_output_positive :
    (∀ (dists : List IngramDistribution) (r : CombinedRate),
        r ∈ combineRates dists → r.carrierCode ≠ "" ∧ 0 < r.totalCharge) ∧
      combineRates
          [⟨"A", [⟨"UPS", "UPS GROUND", "G", 0, 2⟩]⟩,
           ⟨"B", [⟨"UPS", "UPS GROUND", "G", 0, 3⟩]⟩] = [] := by
  constructor
  · intro dists r hr
    match dists with
    | [] => simp [combineRates] at hr
    | [d] =>
      simp only [combineRates] at hr
      rw [mem_sortByCharge] at hr
      rcases List.mem_filter.mp hr with ⟨hmap, hcond⟩
      exact of_decide_eq_true hcond
    | a :: b :: rest =>
      simp only [combineRates] at hr
      rw [mem_sortByCharge] at hr
      rcases List.mem_filterMap.mp hr with ⟨p, hp, heq⟩
      unfold combinedOfAgg at heq
      by_cases hcond :
          p.2.distributions.length =
              ((a :: b :: rest).map (·.shipFromBranchNumber)).dedup.length ∧
            0 < aggTotalCharge p.2
      · rw [if_pos hcond] at heq
        have hr' := Option.some.inj heq
        have hcode : r.carrierCode = p.1 := by rw [← hr']
        have hch : r.totalCharge = aggTotalCharge p.2 := by rw [← hr']
        refine ⟨?_, hch ▸ hcond.2⟩
        rw [hcode]
        exact (goodKeys_buildCarrierMap (a :: b :: rest)).2 p.1
          (List.mem_map.mpr ⟨p, hp, rfl⟩)
      · rw [if_neg hcond] at heq
        exact Option.noConfusion heq
  · have hbuild :
        buildCarrierMap
            [⟨"A", [⟨"UPS", "UPS GROUND", "G", 0, 2⟩]⟩,
             ⟨"B", [⟨"UPS", "UPS GROUND", "G", 0, 3⟩]⟩] =
          [("UPS", ⟨"UPS GROUND", "G", [("A", ⟨0, 2⟩), ("B", ⟨0, 3⟩)]⟩)] := by
      rfl
    have hagg :
        aggTotalCharge ⟨"UPS GROUND", "G", [("A", ⟨0, 2⟩), ("B", ⟨0, 3⟩)]⟩ = 0 := by
      norm_num [aggTotalCharge, List.foldl]
    have hnone : ∀ total : ℕ,
        combinedOfAgg total "UPS"
            ⟨"UPS GROUND", "G", [("A", ⟨0, 2⟩), ("B", ⟨0, 3⟩)]⟩ = none := by
      intro total
      unfold combinedOfAgg
      rw [if_neg]
      rintro ⟨-, hpos⟩
      rw [hagg] at hpos
      exact lt_irrefl 0 hpos
    rw [combineRates_two_or_more _ (by norm_num), hbuild]
    simp [hnone, sortByCharge, List.insertionSort]

theorem combineRates_output_positive_witness :
    (⟨"UPS", "UPS", "G", 10, 2, [⟨"W1", 10, 2⟩], true⟩ : CombinedRate) ∈
        combineRates [⟨"W1", [⟨"UPS", "UPS", "G", 10, 2⟩]⟩] ∧
      (⟨"UPS", "UPS", "G", 10, 2, [⟨"W1", 10, 2⟩], true⟩ :
            CombinedRate).carrierCode ≠ "" ∧
      0 < (⟨"UPS", "UPS", "G", 10, 2, [⟨"W1", 10, 2⟩], true⟩ :
            CombinedRate).totalCharge :=
  ⟨by decide,
    combineRates_output_positive.1 [⟨"W1", [⟨"UPS", "UPS", "G", 10, 2⟩]⟩]
      ⟨"UPS", "UPS", "G", 10, 2, [⟨"W1", 10, 2⟩], true⟩ (by decide)⟩

/-! ## Rate formatting (lines 179-247 of the combiner) -/

theorem length_dropWhile_le_self (p : Char → Bool) (l : List Char) :
    (l.dropWhile p).length ≤ l.length := by
  induction l with
  | nil => simp
  | cons c rest ih =>
    by_cases h : p c
    · simp only [List.dropWhile_cons, h, if_true]
      exact le_trans ih (Nat.le_succ _)
    · simp [List.dropWhile_cons, h]

/-- JS regex replace of a run of whitespace by a single space
(the combiner's first clean-up step). -/
def squashWS : List Char → List Char
  | [] => []
  | c :: rest =>
    if c.isWhitespace then ' ' :: squashWS (rest.dropWhile Char.isWhitespace)
    else c :: squashWS rest
termination_by l => l.length
decreasing_by
  · simp only [List.length_cons]
    exact Nat.lt_succ_of_le (length_dropWhile_le_self _ _)
  · simp

/-- A JS regex word character, for the word boundary in the carrier-name
clean-up pattern. -/
def isWordChar (c : Char) : Bool := c.isAlphanum || c = '_'

/-- The word boundary holds after a match when the input ends or the next
character is not a word character. -/
def boundaryOk : List Char → Bool
  | [] => true
  | d :: _ => !(isWordChar d)

/-- JS global replace of the pattern `EXPRES` followed by a word boundary by
`Express` (the one regex in the clean-up chain needing a boundary check). -/
def replaceExpresAux : List Char → List Char
  | [] => []
  | c :: rest =>
    if ((c :: rest).take 6 == "EXPRES".data) && boundaryOk ((c :: rest).drop 6) then
      "Express".data ++ replaceExpresAux ((c :: rest).drop 6)
    else c :: replaceExpresAux rest
termination_by l => l.length
decreasing_by
  · simp only [List.drop_succ_cons, List.length_cons]
    exact Nat.lt_succ_of_le (by simp [List.length_drop])
  · simp

/-- String-level wrapper for the boundary-aware replace. -/
def replaceExpres (s : String) : String := ⟨replaceExpresAux s.data⟩

/-- `getCarrierDisplayName` (lines 182-199): friendly carrier label with the
documented clean-up chain of global replaces applied in source order. -/
def getCarrierDisplayName (shipVia carrierCode : String) : String :=
  let name :=
    if trimS shipVia = "" then
      (if trimS carrierCode = "" then "Standard Shipping" else trimS carrierCode)
    else trimS shipVia
  let s1 := (String.mk (squashWS name.data)).replace "FEDX" "FedEx"
  let s2 := s1.replace "OVERNITE" "Overnight"
  let s3 := replaceExpres s2
  let s4 := s3.replace "NXT DAY" "Next Day"
  let s5 := s4.replace "2DAY INT" "2-Day"
  let s6 := s5.replace "STD OVR" "Standard Overnight"
  let s7 := s6.replace "PRTY 1" "Priority"
  let s8 := s7.replace "AIR SAT" "Saturday"
  trimS s8

/-- `getTransitDescription` (lines 204-210). -/
def getTransitDescription (days : ℤ) : String :=
  if days ≤ 0 then ""
  else if days = 1 then "Next business day"
  else if days = 2 then "2 business days"
  else if days = 3 then "3 business days"
  else toString days ++ " business days"

/-- JS `Array.prototype.join` with a separator. -/
def joinSep (sep : String) : List String → String
  | [] => ""
  | [s] => s
  | s :: rest => s ++ sep ++ joinSep sep rest

/-- JS `Math.round`: round half towards positive infinity. -/
def jsRound (q : ℚ) : ℤ := ⌊q + 1 / 2⌋

/-- The Shopify carrier-service rate shape returned by
`formatRateForShopify`. -/
structure ShopifyRate where
  service_name : String
  service_code : String
  total_price : String
  currency : String
  description : String
deriving DecidableEq

/-- `formatRateForShopify` (lines 215-247): display name (custom override
when truthy), namespaced service code, price in minor units as
`Math.max(0, Math.round(totalCharge * 100)).toString()`, and a description
joined from the transit wording and a multi-warehouse note with the
`"Ingram Micro freight"` fallback when empty. -/
def formatRateForShopify (rate : CombinedRate) (currency : String)
    (customDisplayName : Option String) : ShopifyRate :=
  let displayName :=
    match customDisplayName with
    | some n =>
      if n = "" then getCarrierDisplayName rate.shipVia rate.carrierCode else n
    | none => getCarrierDisplayName rate.shipVia rate.carrierCode
  let transitDesc := getTransitDescription rate.maxDaysInTransit
  let descParts :=
    (if transitDesc = "" then [] else [transitDesc]) ++
      (if 1 < rate.distributions.length then
        ["Ships from " ++ toString rate.distributions.length ++ " locations"]
      else [])
  let desc := joinSep " • " descParts
  ⟨displayName, "INGRAM_" ++ rate.carrierCode,
    toString (max 0 (jsRound (rate.totalCharge * 100))), currency,
    if desc = "" then "Ingram Micro freight" else desc⟩

/-- C8: `formatRateForShopify` converts `totalCharge` to minor currency
units by the round-half-up rule floored at zero; a `totalCharge` of `19.995`
yields `total_price = "2000"` (second conjunct), a negative total is floored
to `"0"` (third conjunct), and in general the returned string is
`Math.max(0, Math.round(totalCharge * 100)).toString()` (first conjunct). -/
theorem formatRateForShopify_total_price :
    (∀ (rate : CombinedRate) (currency : String) (customName : Option String),
        (formatRateForShopify rate currency customName).total_price =
          toString (max 0 (jsRound (rate.totalCharge * 100)))) ∧
      (formatRateForShopify ⟨"UPS", "UPS", "G", 19.995, 2, [], true⟩
            "USD" none).total_price = "2000" ∧
      (formatRateForShopify ⟨"UPS", "UPS", "G", -5, 2, [], true⟩
            "USD" none).total_price = "0" := by
  refine ⟨fun rate currency customName => rfl, ?_, ?_⟩
  · have h : jsRound ((19.995 : ℚ) * 100) = 2000 := by
      unfold jsRound
      norm_num
    simp only [formatRateForShopify, h]
    decide
  · have h : jsRound ((-5 : ℚ) * 100) = -500 := by
      unfold jsRound
      norm_num
    simp only [formatRateForShopify, h]
    decide

/-! ## TTL cache (src/app/utils/ttl-cache.server.ts) -/

/-- A cache entry: stored value plus absolute expiry time (ms). -/
structure CacheEntry (V : Type) where
  value : V
  expiresAt : ℕ
deriving DecidableEq

/-- The state of one `createTtlCache` instance.  All call sites key their
caches by strings, so the key type is fixed to `String`; times are
milliseconds since an arbitrary epoch. -/
structure TtlCache (V : Type) where
  ttlMs : ℕ
  maxEntries : ℕ
  store : List (String × CacheEntry V)
deriving DecidableEq

/-- `get` (lines 15-25): absent or expired keys read as absent; an expired
entry is lazily deleted as a side effect. -/
def tget {V : Type} (now : ℕ) (c : TtlCache V) (k : String) :
    Option V × TtlCache V :=
  match lookupA c.store k with
  | none => (none, c)
  | some entry =>
    if entry.expiresAt ≤ now then (none, { c with store := eraseKey c.store k })
    else (some entry.value, c)

/-- `set` (lines 27-37): insert/overwrite with `expiresAt = now + ttl`, then
if the size exceeds `maxEntries`, delete the first key in insertion order. -/
def tset {V : Type} (now : ℕ) (c : TtlCache V) (k : String) (v : V)
    (customTtlMs : Option ℕ) : TtlCache V :=
  let s1 := mapSet c.store k ⟨v, now + customTtlMs.getD c.ttlMs⟩
  let s2 :=
    if c.maxEntries < s1.length then
      match s1.head? with
      | some p => eraseKey s1 p.1
      | none => s1
    else s1
  { c with store := s2 }

/-- `delete` (lines 39-41). -/
def tdelete {V : Type} (c : TtlCache V) (k : String) : TtlCache V :=
  { c with store := eraseKey c.store k }

theorem mapSet_length {α : Type} (m : List (String × α)) (k : String) (v : α) :
    (mapSet m k v).length =
      if k ∈ m.map Prod.fst then m.length else m.length + 1 := by
  have h := congrArg List.length (mapSet_map_fst m k v)
  rw [List.length_map] at h
  by_cases hk : k ∈ m.map Prod.fst
  · rw [if_pos hk] at h
    rw [if_pos hk, h, List.length_map]
  · rw [if_neg hk] at h
    rw [if_neg hk, h, List.length_append, List.length_map, List.length_singleton]

/-- C5 (amended): after a `set` that makes the entry count exceed
`maxEntries`, exactly one key is evicted, namely the first key in insertion
order (the oldest-inserted key); and re-inserting an already-present key
keeps its original position (JS `Map.set` does not move it to the back), so
without an overflow the key order is unchanged and the oldest key remains
the eviction candidate. -/
theorem tset_eviction_policy :
    (∀ (V : Type) (now : ℕ) (c : TtlCache V) (k : String) (v : V) (t : Option ℕ),
        c.maxEntries < (mapSet c.store k ⟨v, now + t.getD c.ttlMs⟩).length →
          (tset now c k v t).store =
            (mapSet c.store k ⟨v, now + t.getD c.ttlMs⟩).tail) ∧
      (∀ (V : Type) (now : ℕ) (c : TtlCache V) (k : String) (v : V) (t : Option ℕ),
          k ∈ c.store.map Prod.fst → c.store.length ≤ c.maxEntries →
            (tset now c k v t).store.map Prod.fst = c.store.map Prod.fst) := by
  constructor
  · intro V now c k v t hover
    simp only [tset]
    rw [if_pos hover]
    cases hs : mapSet c.store k ⟨v, now + t.getD c.ttlMs⟩ with
    | nil => rw [hs] at hover; simp at hover
    | cons p rest =>
      obtain ⟨k0, e0⟩ := p
      simp [eraseKey]
  · intro V now c k v t hmem hlen
    simp only [tset]
    have hfst := mapSet_map_fst c.store k ⟨v, now + t.getD c.ttlMs⟩
    rw [if_pos hmem] at hfst
    have hlen1 : (mapSet c.store k ⟨v, now + t.getD c.ttlMs⟩).length =
        c.store.length := by
      rw [mapSet_length, if_pos hmem]
    rw [if_neg (by rw [hlen1]; exact not_lt.mpr hlen)]
    exact hfst

theorem tset_eviction_policy_witness :
    ((⟨100, 1, [("a", ⟨1, 100⟩)]⟩ : TtlCache ℕ).maxEntries <
        (mapSet (⟨100, 1, [("a", ⟨1, 100⟩)]⟩ : TtlCache ℕ).store "b"
          ⟨2, 0 + (none : Option ℕ).getD 100⟩).length ∧
      (tset 0 (⟨100, 1, [("a", ⟨1, 100⟩)]⟩ : TtlCache ℕ) "b" 2 none).store =
        (mapSet (⟨100, 1, [("a", ⟨1, 100⟩)]⟩ : TtlCache ℕ).store "b"
          ⟨2, 0 + (none : Option ℕ).getD 100⟩).tail) ∧
      ("a" ∈ (⟨100, 2, [("a", ⟨1, 100⟩), ("b", ⟨2, 100⟩)]⟩ :
            TtlCache ℕ).store.map Prod.fst ∧
        (⟨100, 2, [("a", ⟨1, 100⟩), ("b", ⟨2, 100⟩)]⟩ :
            TtlCache ℕ).store.length ≤ 2 ∧
        (tset 0 (⟨100, 2, [("a", ⟨1, 100⟩), ("b", ⟨2, 100⟩)]⟩ : TtlCache ℕ)
              "a" 3 none).store.map Prod.fst =
          (⟨100, 2, [("a", ⟨1, 100⟩), ("b", ⟨2, 100⟩)]⟩ :
            TtlCache ℕ).store.map Prod.fst) :=
  ⟨⟨by decide,
      tset_eviction_policy.1 ℕ 0 ⟨100, 1, [("a", ⟨1, 100⟩)]⟩ "b" 2 none
        (by decide)⟩,
    by decide, by decide,
    tset_eviction_policy.2 ℕ 0 ⟨100, 2, [("a", ⟨1, 100⟩), ("b", ⟨2, 100⟩)]⟩
      "a" 3 none (by decide) (by decide)⟩

/-- C5 counterexample: re-inserting the already-present key `a` leaves it at
the front of the insertion order (first conjunct; the claim predicts it
moves to the back), and the next overflowing `set` evicts `a` itself
(second conjunct; the claim predicts `a` is no longer the eviction
candidate). -/
theorem tset_reinsert_counterexample :
    ((tset 0 (tset 0 (tset 0 (⟨100, 2, []⟩ : TtlCache ℕ) "a" 1 none)
          "b" 2 none) "a" 3 none).store.map Prod.fst = ["a", "b"]) ∧
      ((tset 0 (tset 0 (tset 0 (tset 0 (⟨100, 2, []⟩ : TtlCache ℕ) "a" 1 none)
            "b" 2 none) "a" 3 none) "c" 4 none).store.map Prod.fst =
        ["b", "c"]) := by
  decide

/-! ## Freight cache key (src/app/services/ingram.server.ts lines 68-107) -/

/-- `normalizeString` (lines 68-72): trim a string, and map absent values to
the empty string. -/
def normOpt : Option String → String
  | some s => trimS s
  | none => ""

/-- The `shipToAddress` shape of the rate-test schema (lines 49-57). -/
structure ShipToAddress where
  companyName : String
  addressLine1 : String
  addressLine2 : Option String
  city : String
  state : String
  postalCode : String
  countryCode : String
deriving DecidableEq

/-- One request line as read by the cache-key builder (lines 85-96): the
four tolerated part-number field names plus the quantity.  The quantity
(`Number(line.quantity ?? 1)` with a positivity/finiteness guard) is
modelled as an optional integer; an absent quantity coerces to the default
1, as does a non-positive one. -/
structure RateLine where
  ingramPartNumber : Option String
  itemNumber : Option String
  customerLineNumber : Option String
  sku : Option String
  quantity : Option ℤ
deriving DecidableEq

/-- The `RateTestInput` payload shape (lines 59-66). -/
structure RateTestInput where
  shipToAddress : ShipToAddress
  lines : List RateLine
  billToAddressId : Option String
  shipToAddressId : Option String
deriving DecidableEq

/-- Lines 87-91: the first non-empty of the four normalized part-number
fields, in source priority order. -/
def firstPartNumber (line : RateLine) : String :=
  let p1 := normOpt line.ingramPartNumber
  if p1 = "" then
    let p2 := normOpt line.itemNumber
    if p2 = "" then
      let p3 := normOpt line.customerLineNumber
      if p3 = "" then normOpt line.sku else p3
    else p2
  else p1

/-- Lines 92-93: quantity coerced to a positive value with default 1. -/
def lineQty (line : RateLine) : ℤ :=
  match line.quantity with
  | some q => if 0 < q then q else 1
  | none => 1

/-- Line 95: the per-line token `part:qty`, or the empty token when no part
number is present. -/
def lineToken (line : RateLine) : String :=
  let part := firstPartNumber line
  if part = "" then "" else part ++ ":" ++ toString (lineQty line)

/-- Lexicographic comparison of char lists by code point, modelling the JS
default string sort order. -/
def lexLe : List Char → List Char → Bool
  | [], _ => true
  | _ :: _, [] => false
  | a :: as, b :: bs => if a = b then lexLe as bs else decide (a.toNat < b.toNat)

theorem char_eq_of_toNat_eq {a b : Char} (h : a.toNat = b.toNat) : a = b :=
  Char.eq_of_val_eq (UInt32.ext h)

theorem lexLe_total : ∀ as bs : List Char, lexLe as bs = true ∨ lexLe bs as = true := by
  intro as
  induction as with
  | nil => intro bs; exact Or.inl rfl
  | cons a as ih =>
    intro bs
    cases bs with
    | nil => exact Or.inr rfl
    | cons b bs =>
      by_cases hab : a = b
      · subst hab
        rcases ih bs with h | h
        · exact Or.inl (by simp [lexLe, h])
        · exact Or.inr (by simp [lexLe, h])
      · have hba : b ≠ a := fun h => hab h.symm
        have hne : a.toNat ≠ b.toNat := fun h => hab (char_eq_of_toNat_eq h)
        rcases Nat.lt_or_ge a.toNat b.toNat with h | h
        · exact Or.inl (by simp [lexLe, hab, h])
        · have hlt : b.toNat < a.toNat :=
            lt_of_le_of_ne h (fun hh => hne hh.symm)
          exact Or.inr (by simp [lexLe, hba, hlt])

theorem lexLe_trans : ∀ as bs cs : List Char,
    lexLe as bs = true → lexLe bs cs = true → lexLe as cs = true := by
  intro as
  induction as with
  | nil => intro bs cs h1 h2; rfl
  | cons a as ih =>
    intro bs cs h1 h2
    cases bs with
    | nil => simp [lexLe] at h1
    | cons b bs =>
      cases cs with
      | nil => simp [lexLe] at h2
      | cons c cs =>
        by_cases hab : a = b
        · subst hab
          by_cases hbc : a = c
          · subst hbc
            simp only [lexLe, if_pos rfl] at h1 h2 ⊢
            exact ih bs cs h1 h2
          · simp only [lexLe, if_pos rfl] at h1
            simp only [lexLe, if_neg hbc] at h2 ⊢
            exact h2
        · simp only [lexLe, if_neg hab] at h1
          have h1' : a.toNat < b.toNat := of_decide_eq_true h1
          by_cases hbc : b = c
          · subst hbc
            simp only [lexLe, if_neg hab]
            exact decide_eq_true h1'
          · simp only [lexLe, if_neg hbc] at h2
            have h2' : b.toNat < c.toNat := of_decide_eq_true h2
            have hac : a.toNat < c.toNat := lt_trans h1' h2'
            have hanec : a ≠ c := by
              intro h
              subst h
              exact lt_irrefl _ hac
            simp only [lexLe, if_neg hanec]
            exact decide_eq_true hac

theorem lexLe_antisymm : ∀ as bs : List Char,
    lexLe as bs = true → lexLe bs as = true → as = bs := by
  intro as
  induction as with
  | nil =>
    intro bs h1 h2
    cases bs with
    | nil => rfl
    | cons b bs => simp [lexLe] at h2
  | cons a as ih =>
    intro bs h1 h2
    cases bs with
    | nil => simp [lexLe] at h1
    | cons b bs =>
      by_cases hab : a = b
      · subst hab
        simp only [lexLe, if_pos rfl] at h1 h2
        rw [ih bs h1 h2]
      · have hba : b ≠ a := fun h => hab h.symm
        simp only [lexLe, if_neg hab] at h1
        simp only [lexLe, if_neg hba] at h2
        have h1' : a.toNat < b.toNat := of_decide_eq_true h1
        have h2' : b.toNat < a.toNat := of_decide_eq_true h2
        exact absurd (lt_trans h1' h2') (lt_irrefl _)

/-- The JS default-sort string order used for the line-token signature. -/
def strLe (s t : String) : Prop := lexLe s.data t.data = true

instance : DecidableRel strLe := fun s t =>
  inferInstanceAs (Decidable (lexLe s.data t.data = true))

instance : IsTotal String strLe := ⟨fun s t => lexLe_total s.data t.data⟩

instance : IsTrans String strLe :=
  ⟨fun s t u h1 h2 => lexLe_trans s.data t.data u.data h1 h2⟩

instance : IsAntisymm String strLe :=
  ⟨fun s t h1 h2 => String.ext (lexLe_antisymm s.data t.data h1 h2)⟩

/-- `buildFreightCacheKey` (lines 74-107): destination block (lowercased
shop, uppercased country and state, trimmed postal code, lowercased city and
first address line), optional bill-to/ship-to overrides, and the
lexicographically sorted line-token signature, all joined with pipes. -/
def buildFreightCacheKey (shopDomain : String) (payload : RateTestInput) : String :=
  let address := payload.shipToAddress
  let destinationKey := joinSep "|"
    [lowerS shopDomain,
     upperS (trimS address.countryCode),
     upperS (trimS address.state),
     trimS address.postalCode,
     lowerS (trimS address.city),
     lowerS (trimS address.addressLine1)]
  let lineKey := joinSep "|"
    (List.insertionSort strLe
      ((payload.lines.map lineToken).filter (fun t => decide (t ≠ ""))))
  joinSep "|"
    [destinationKey, normOpt payload.billToAddressId,
     normOpt payload.shipToAddressId, lineKey]

/-- C3 (amended): permuting the line items leaves the freight cache key
unchanged (first conjunct); and two requests that differ in the
**normalized** value of exactly one of postal code, country code, city, or
address line 1 get different keys (remaining conjuncts).  The
normalization is the one the key builder applies: trim for the postal code,
trim plus upper-casing for the country, trim plus lower-casing for city and
address line 1. -/
theorem buildFreightCacheKey_determinism :
    (∀ (shop : String) (addr : ShipToAddress) (bill ship : Option String)
        (l1 l2 : List RateLine), l1.Perm l2 →
        buildFreightCacheKey shop ⟨addr, l1, bill, ship⟩ =
          buildFreightCacheKey shop ⟨addr, l2, bill, ship⟩) ∧
      (∀ (shop : String) (addr : ShipToAddress) (lines : List RateLine)
          (bill ship : Option String) (p q : String), trimS p ≠ trimS q →
          buildFreightCacheKey shop ⟨{addr with postalCode := p}, lines, bill, ship⟩ ≠
            buildFreightCacheKey shop ⟨{addr with postalCode := q}, lines, bill, ship⟩) ∧
      (∀ (shop : String) (addr : ShipToAddress) (lines : List RateLine)
          (bill ship : Option String) (p q : String),
          upperS (trimS p) ≠ upperS (trimS q) →
          buildFreightCacheKey shop ⟨{addr with countryCode := p}, lines, bill, ship⟩ ≠
            buildFreightCacheKey shop ⟨{addr with countryCode := q}, lines, bill, ship⟩) ∧
      (∀ (shop : String) (addr : ShipToAddress) (lines : List RateLine)
          (bill ship : Option String) (p q : String),
          lowerS (trimS p) ≠ lowerS (trimS q) →
          buildFreightCacheKey shop ⟨{addr with city := p}, lines, bill, ship⟩ ≠
            buildFreightCacheKey shop ⟨{addr with city := q}, lines, bill, ship⟩) ∧
      (∀ (shop : String) (addr : ShipToAddress) (lines : List RateLine)
          (bill ship : Option String) (p q : String),
          lowerS (trimS p) ≠ lowerS (trimS q) →
          buildFreightCacheKey shop ⟨{addr with addressLine1 := p}, lines, bill, ship⟩ ≠
            buildFreightCacheKey shop ⟨{addr with addressLine1 := q}, lines, bill, ship⟩) := by
  refine ⟨?_, ?_, ?_, ?_, ?_⟩
  · intro shop addr bill ship l1 l2 hperm
    have hp : ((l1.map lineToken).filter (fun t => decide (t ≠ ""))).Perm
        ((l2.map lineToken).filter (fun t => decide (t ≠ ""))) :=
      (hperm.map lineToken).filter (fun t => decide (t ≠ ""))
    have hsort :
        List.insertionSort strLe
            ((l1.map lineToken).filter (fun t => decide (t ≠ ""))) =
          List.insertionSort strLe
            ((l2.map lineToken).filter (fun t => decide (t ≠ ""))) :=
      List.eq_of_perm_of_sorted
        (((List.perm_insertionSort strLe _).trans hp).trans
          (List.perm_insertionSort strLe _).symm)
        (List.sorted_insertionSort strLe _)
        (List.sorted_insertionSort strLe _)
    simp only [buildFreightCacheKey]
    rw [hsort]
  · intro shop addr lines bill ship p q hne heq
    have h := congrArg String.data heq
    simp only [buildFreightCacheKey, joinSep, String.data_append,
      List.append_assoc] at h
    have h1 := List.append_cancel_left h
    have h2 := List.append_cancel_left h1
    have h3 := List.append_cancel_left h2
    have h4 := List.append_cancel_left h3
    have h5 := List.append_cancel_left h4
    have h6 := List.append_cancel_left h5
    exact hne (String.ext (List.append_cancel_right h6))
  · intro shop addr lines bill ship p q hne heq
    have h := congrArg String.data heq
    simp only [buildFreightCacheKey, joinSep, String.data_append,
      List.append_assoc] at h
    have h1 := List.append_cancel_left h
    have h2 := List.append_cancel_left h1
    exact hne (String.ext (List.append_cancel_right h2))
  · intro shop addr lines bill ship p q hne heq
    have h := congrArg String.data heq
    simp only [buildFreightCacheKey, joinSep, String.data_append,
      List.append_assoc] at h
    have h1 := List.append_cancel_left h
    have h2 := List.append_cancel_left h1
    have h3 := List.append_cancel_left h2
    have h4 := List.append_cancel_left h3
    have h5 := List.append_cancel_left h4
    have h6 := List.append_cancel_left h5
    have h7 := List.append_cancel_left h6
    have h8 := List.append_cancel_left h7
    exact hne (String.ext (List.append_cancel_right h8))
  · intro shop addr lines bill ship p q hne heq
    have h := congrArg String.data heq
    simp only [buildFreightCacheKey, joinSep, String.data_append,
      List.append_assoc] at h
    have h1 := List.append_cancel_left h
    have h2 := List.append_cancel_left h1
    have h3 := List.append_cancel_left h2
    have h4 := List.append_cancel_left h3
    have h5 := List.append_cancel_left h4
    have h6 := List.append_cancel_left h5
    have h7 := List.append_cancel_left h6
    have h8 := List.append_cancel_left h7
    have h9 := List.append_cancel_left h8
    have h10 := List.append_cancel_left h9
    exact hne (String.ext (List.append_cancel_right h10))

/-- C3 counterexample: two requests whose postal codes differ as strings
(`"123"` versus `"123 "` with a trailing space) produce the identical cache
key, because the builder trims the field first; so differing in the raw
postal code does not always change the key. -/
theorem buildFreightCacheKey_trim_counterexample :
    ("123" : String) ≠ "123 " ∧
      buildFreightCacheKey "shop.myshopify.com"
          ⟨⟨"Customer", "100 Main St", none, "Austin", "TX", "123", "US"⟩,
            [], none, none⟩ =
        buildFreightCacheKey "shop.myshopify.com"
          ⟨⟨"Customer", "100 Main St", none, "Austin", "TX", "123 ", "US"⟩,
            [], none, none⟩ := by
  decide

theorem buildFreightCacheKey_determinism_witness :
    ([⟨some "X", none, none, none, some 1⟩,
        ⟨some "Y", none, none, none, some 2⟩] : List RateLine).Perm
        [⟨some "Y", none, none, none, some 2⟩,
          ⟨some "X", none, none, none, some 1⟩] ∧
      buildFreightCacheKey "shop"
          ⟨⟨"Customer", "100 Main St", none, "Austin", "TX", "78701", "US"⟩,
            [⟨some "X", none, none, none, some 1⟩,
              ⟨some "Y", none, none, none, some 2⟩], none, none⟩ =
        buildFreightCacheKey "shop"
          ⟨⟨"Customer", "100 Main St", none, "Austin", "TX", "78701", "US"⟩,
            [⟨some "Y", none, none, none, some 2⟩,
              ⟨some "X", none, none, none, some 1⟩], none, none⟩ ∧
      trimS "78701" ≠ trimS "78702" ∧
      buildFreightCacheKey "shop"
          ⟨{(⟨"Customer", "100 Main St", none, "Austin", "TX", "00000", "US"⟩ :
              ShipToAddress) with postalCode := "78701"}, [], none, none⟩ ≠
        buildFreightCacheKey "shop"
          ⟨{(⟨"Customer", "100 Main St", none, "Austin", "TX", "00000", "US"⟩ :
              ShipToAddress) with postalCode := "78702"}, [], none, none⟩ :=
  ⟨by decide,
    buildFreightCacheKey_determinism.1 "shop"
      ⟨"Customer", "100 Main St", none, "Austin", "TX", "78701", "US"⟩ none none
      [⟨some "X", none, none, none, some 1⟩, ⟨some "Y", none, none, none, some 2⟩]
      [⟨some "Y", none, none, none, some 2⟩, ⟨some "X", none, none, none, some 1⟩]
      (by decide),
    by decide,
    buildFreightCacheKey_determinism.2.1 "shop"
      ⟨"Customer", "100 Main St", none, "Austin", "TX", "00000", "US"⟩ [] none none
      "78701" "78702" (by decide)⟩

/-! ## Freight request coalescer (src/app/services/ingram.server.ts lines 194-297) -/

/-- The `freightEstimateResponse` block of the upstream JSON (only the
fields the cart route reads). -/
structure FreightSummary where
  currencyCode : Option String
  distribution : Option (List IngramDistribution)
deriving DecidableEq

/-- The parsed upstream freight JSON body. -/
structure FreightJson where
  freightEstimateResponse : Option FreightSummary
deriving DecidableEq

/-- The value cached per freight cache key (lines 16-25). -/
structure CachedFreight where
  ingramCorrelationId : String
  response : FreightJson
deriving DecidableEq

/-- The settled result `requestFreightEstimate` resolves with. -/
structure FreightOutcome where
  correlationId : String
  response : FreightJson
  cacheHit : Bool
deriving DecidableEq

/-- The typed `IngramError` (lines 109-119); only the message matters to the
claims. -/
structure IngramError where
  message : String
deriving DecidableEq

/-- The module-level mutable state of the coalescer: the TTL result cache
and the in-flight request map (lines 16-33).  The in-flight map's promise
values are modelled by the keys alone; what a joining caller receives from
such a promise is the `joined` argument below. -/
structure FreightState where
  cache : TtlCache CachedFreight
  inflight : List String
deriving DecidableEq

/-- `requestFreightEstimate` (lines 194-297) as a state transformer over one
full call at time `now`.  The settlement of the upstream work (credential
lookup, token refresh, fetch, JSON parse — everything inside the
`requestPromise` closure) is the `upstream` argument: `.ok` carries the
fresh correlation id and parsed body, `.error` a thrown `IngramError`.
`joined` is the settled result observed when awaiting an already in-flight
promise for the same key.  The `try`/`finally` around `await requestPromise`
is modelled by erasing the key from the in-flight list in both settlement
branches. -/
def requestFreightEstimate (now : ℕ) (shopDomain : String)
    (payload : RateTestInput) (st : FreightState)
    (joined : Except IngramError FreightOutcome)
    (upstream : Except IngramError (String × FreightJson)) :
    Except IngramError FreightOutcome × FreightState :=
  let cacheKey := buildFreightCacheKey shopDomain payload
  let got := tget now st.cache cacheKey
  match got.1 with
  | some entry =>
    (Except.ok ⟨entry.ingramCorrelationId, entry.response, true⟩,
      { st with cache := got.2 })
  | none =>
    if cacheKey ∈ st.inflight then (joined, { st with cache := got.2 })
    else
      match upstream with
      | Except.ok r =>
        (Except.ok ⟨r.1, r.2, false⟩,
          ⟨tset now got.2 cacheKey ⟨r.1, r.2⟩ none,
            (st.inflight ++ [cacheKey]).erase cacheKey⟩)
      | Except.error e =>
        (Except.error e, ⟨got.2, (st.inflight ++ [cacheKey]).erase cacheKey⟩)

theorem lookupA_eraseKey_self_of_nodup {α : Type} {m : List (String × α)}
    (k : String) (hnd : (m.map Prod.fst).Nodup) :
    lookupA (eraseKey m k) k = none := by
  induction m with
  | nil => simp [eraseKey, lookupA]
  | cons p rest ih =>
    obtain ⟨a, b⟩ := p
    simp only [List.map_cons, List.nodup_cons] at hnd
    by_cases ha : a = k
    · subst ha
      simp only [eraseKey, if_pos rfl]
      exact (lookupA_eq_none_iff rest a).mpr hnd.1
    · simp only [eraseKey, if_neg ha, lookupA, if_neg ha]
      exact ih hnd.2

theorem tget_none_stays_none {V : Type} (now now' : ℕ) (c : TtlCache V)
    (k : String) (hnd : (c.store.map Prod.fst).Nodup)
    (h : (tget now c k).1 = none) : (tget now' (tget now c k).2 k).1 = none := by
  unfold tget at h ⊢
  cases hl : lookupA c.store k with
  | none => simp [hl]
  | some entry =>
    simp only [hl] at h ⊢
    by_cases hexp : entry.expiresAt ≤ now
    · simp only [if_pos hexp]
      simp [lookupA_eraseKey_self_of_nodup k hnd]
    · rw [if_neg hexp] at h
      simp at h

/-- C4: when a call to `requestFreightEstimate` starts an upstream call
(cache miss and no in-flight entry for its key), the in-flight marker for
the key is absent once the call settles — whether the upstream call
fulfilled or rejected — and after a rejected call a retry with the same key
starts (and returns the result of) a new upstream request instead of being
blocked. -/
theorem requestFreightEstimate_clears_inflight (now : ℕ) (shop : String)
    (payload : RateTestInput) (st : FreightState)
    (joined : Except IngramError FreightOutcome)
    (upstream : Except IngramError (String × FreightJson))
    (hnd : (st.cache.store.map Prod.fst).Nodup)
    (hmiss : (tget now st.cache (buildFreightCacheKey shop payload)).1 = none)
    (hninf : buildFreightCacheKey shop payload ∉ st.inflight) :
    buildFreightCacheKey shop payload ∉
        (requestFreightEstimate now shop payload st joined upstream).2.inflight ∧
      ∀ e, upstream = Except.error e →
        ∀ (now' : ℕ) (joined' : Except IngramError FreightOutcome)
          (cid : String) (json : FreightJson),
          (requestFreightEstimate now' shop payload
              (requestFreightEstimate now shop payload st joined upstream).2
              joined' (Except.ok (cid, json))).1 =
            Except.ok ⟨cid, json, false⟩ := by
  have herase : (st.inflight ++ [buildFreightCacheKey shop payload]).erase
      (buildFreightCacheKey shop payload) = st.inflight := by
    rw [List.erase_append_right _ hninf]
    simp
  constructor
  · simp only [requestFreightEstimate, hmiss]
    rw [if_neg hninf]
    cases upstream with
    | ok r => simpa [herase] using hninf
    | error e => simpa [herase] using hninf
  · intro e hup now' joined' cid json
    subst hup
    have hstate : (requestFreightEstimate now shop payload st joined
        (Except.error e)).2 =
        ⟨(tget now st.cache (buildFreightCacheKey shop payload)).2,
          st.inflight⟩ := by
      simp only [requestFreightEstimate, hmiss]
      rw [if_neg hninf, herase]
    rw [hstate]
    have hmiss' : (tget now'
        ((tget now st.cache (buildFreightCacheKey shop payload)).2)
        (buildFreightCacheKey shop payload)).1 = none :=
      tget_none_stays_none now now' st.cache _ hnd hmiss
    simp only [requestFreightEstimate, hmiss']
    rw [if_neg hninf]

theorem requestFreightEstimate_clears_inflight_witness :
    (((⟨⟨120000, 200, []⟩, []⟩ : FreightState).cache.store.map Prod.fst).Nodup ∧
        (tget 0 (⟨⟨120000, 200, []⟩, []⟩ : FreightState).cache
            (buildFreightCacheKey "shop"
              ⟨⟨"C", "A", none, "X", "TX", "1", "US"⟩, [], none, none⟩)).1 =
          none ∧
        buildFreightCacheKey "shop"
            ⟨⟨"C", "A", none, "X", "TX", "1", "US"⟩, [], none, none⟩ ∉
          (⟨⟨120000, 200, []⟩, []⟩ : FreightState).inflight) ∧
      (buildFreightCacheKey "shop"
            ⟨⟨"C", "A", none, "X", "TX", "1", "US"⟩, [], none, none⟩ ∉
          (requestFreightEstimate 0 "shop"
              ⟨⟨"C", "A", none, "X", "TX", "1", "US"⟩, [], none, none⟩
              ⟨⟨120000, 200, []⟩, []⟩ (Except.error ⟨"unused"⟩)
              (Except.error ⟨"boom"⟩)).2.inflight ∧
        ∀ e, (Except.error ⟨"boom"⟩ :
              Except IngramError (String × FreightJson)) = Except.error e →
          ∀ (now' : ℕ) (joined' : Except IngramError FreightOutcome)
            (cid : String) (json : FreightJson),
            (requestFreightEstimate now' "shop"
                ⟨⟨"C", "A", none, "X", "TX", "1", "US"⟩, [], none, none⟩
                (requestFreightEstimate 0 "shop"
                    ⟨⟨"C", "A", none, "X", "TX", "1", "US"⟩, [], none, none⟩
                    ⟨⟨120000, 200, []⟩, []⟩ (Except.error ⟨"unused"⟩)
                    (Except.error ⟨"boom"⟩)).2
                joined' (Except.ok (cid, json))).1 =
              Except.ok ⟨cid, json, false⟩) :=
  ⟨⟨by decide, by decide, by decide⟩,
    requestFreightEstimate_clears_inflight 0 "shop"
      ⟨⟨"C", "A", none, "X", "TX", "1", "US"⟩, [], none, none⟩
      ⟨⟨120000, 200, []⟩, []⟩ (Except.error ⟨"unused"⟩)
      (Except.error ⟨"boom"⟩) (by decide) (by decide) (by decide)⟩

/-! ## SKU mapping resolver (src/app/services/ingram.server.ts lines 618-771) -/

/-- A resolved SKU mapping.  The optional `cost`/`availability` fields of
the source type are never populated on this code path and are omitted. -/
structure IngramSkuMapping where
  sku : String
  ingramPartNumber : String
deriving DecidableEq

/-- The 5-minute positive TTL (`SKU_CACHE_TTL_MS`, line 625). -/
def skuCacheTtlMs : ℕ := 300000

/-- The 1-minute negative TTL (`SKU_CACHE_NEGATIVE_TTL_MS`, line 626). -/
def skuCacheNegativeTtlMs : ℕ := 60000

/-- The per-shop cache key `shopDomain::sku` used throughout the resolver. -/
def skuCacheKey (shop sku : String) : String := shop ++ "::" ++ sku

/-- JS `Array.from(new Set(xs))` (structurally recursive formulation with an
accumulator of already-seen elements): keep first occurrences in order. -/
def dedupFirstAux : List String → List String → List String
  | _, [] => []
  | seen, a :: rest =>
    if a ∈ seen then dedupFirstAux seen rest
    else a :: dedupFirstAux (a :: seen) rest

/-- JS `Array.from(new Set(xs))`: de-duplicate keeping first occurrences. -/
def dedupFirst (l : List String) : List String := dedupFirstAux [] l

/-- Lines 641-647: trim, drop empties, de-duplicate. -/
def normalizeSkus (skus : List String) : List String :=
  dedupFirst ((skus.map trimS).filter (fun s => decide (s ≠ "")))

/-- Lines 649-662: walk the normalized SKUs over the cache, splitting them
into cached positive results (in order) and uncached SKUs to query; each
lookup may lazily delete an expired entry, so the cache is threaded
through. -/
def scanSkuCache (now : ℕ) (shop : String) :
    TtlCache (Option IngramSkuMapping) → List String →
      TtlCache (Option IngramSkuMapping) × List IngramSkuMapping × List String
  | cache, [] => (cache, [], [])
  | cache, sku :: rest =>
    let got := tget now cache (skuCacheKey shop sku)
    let r := scanSkuCache now shop got.2 rest
    match got.1 with
    | some (some m) => (r.1, m :: r.2.1, r.2.2)
    | some none => r
    | none => (r.1, r.2.1, sku :: r.2.2)

/-- Lines 668-683: the local Prisma lookup, `where sku in skusToQuery`; a
thrown error (table missing) degrades to no rows. -/
def dbMappingsFor (prismaUp : Bool) (prismaTable : List IngramSkuMapping)
    (skusToQuery : List String) : List IngramSkuMapping :=
  if prismaUp then prismaTable.filter (fun m => decide (m.sku ∈ skusToQuery))
  else []

/-- Line 695: the SKUs still unresolved after the local store. -/
def missingFrom (dbMappings : List IngramSkuMapping)
    (skusToQuery : List String) : List String :=
  skusToQuery.filter (fun sku => decide (¬ ∃ m ∈ dbMappings, m.sku = sku))

/-- Lines 753-761: cache each remotely fetched hit positively (5-minute
TTL) or negatively (1-minute TTL), collecting the hits; a JS `Map` built
from an array keeps the last entry per key, hence the reversed `find?`. -/
def resolveMissing (now : ℕ) (shop : String) :
    TtlCache (Option IngramSkuMapping) → List String → List IngramSkuMapping →
      TtlCache (Option IngramSkuMapping) × List IngramSkuMapping
  | cache, [], _ => (cache, [])
  | cache, sku :: rest, fetched =>
    match (fetched.reverse).find? (fun m => m.sku == sku) with
    | some m =>
      let r := resolveMissing now shop
        (tset now cache (skuCacheKey shop sku) (some m) (some skuCacheTtlMs))
        rest fetched
      (r.1, m :: r.2)
    | none =>
      let r := resolveMissing now shop
        (tset now cache (skuCacheKey shop sku) none (some skuCacheNegativeTtlMs))
        rest fetched
      (r.1, r.2)

/-- `getIngramMappingsForSkus` (lines 632-764) as a pure function of the
call-time state: the SKU cache, whether the Prisma table is reachable and
its rows for this shop, and the settled Supabase outcome.  Returns the
result (`.error` models the thrown Supabase failure), the final cache, and
whether a remote (Supabase) query was issued.  The fire-and-forget local
write-through (lines 727-751) is an external side effect with no bearing on
the returned state and is not modelled. -/
def getIngramMappingsForSkus (now : ℕ)
    (cache0 : TtlCache (Option IngramSkuMapping)) (shopDomain : String)
    (skus : List String) (allowSupabaseFallback : Bool) (prismaUp : Bool)
    (prismaTable : List IngramSkuMapping)
    (supaOutcome : Except Unit (List IngramSkuMapping)) :
    Except Unit (List IngramSkuMapping) ×
      TtlCache (Option IngramSkuMapping) × Bool :=
  if skus.isEmpty then (Except.ok [], cache0, false)
  else
    let scan := scanSkuCache now shopDomain cache0 (normalizeSkus skus)
    if scan.2.2.isEmpty then (Except.ok scan.2.1, scan.1, false)
    else
      let dbMappings := dbMappingsFor prismaUp prismaTable scan.2.2
      let cache2 := dbMappings.foldl
        (fun c m => tset now c (skuCacheKey shopDomain m.sku) (some m) none)
        scan.1
      let results2 := scan.2.1 ++ dbMappings
      let missing := missingFrom dbMappings scan.2.2
      if missing.isEmpty then (Except.ok results2, cache2, false)
      else if allowSupabaseFallback = false then
        let cache3 := missing.foldl
          (fun c sku =>
            tset now c (skuCacheKey shopDomain sku) none
              (some skuCacheNegativeTtlMs))
          cache2
        (Except.ok results2, cache3, false)
      else
        match supaOutcome with
        | Except.error _ => (Except.error (), cache2, true)
        | Except.ok fetched =>
          let rm := resolveMissing now shopDomain cache2 missing fetched
          (Except.ok (results2 ++ rm.2), rm.1, true)

theorem skuCacheKey_inj (shop s1 s2 : String)
    (h : skuCacheKey shop s1 = skuCacheKey shop s2) : s1 = s2 := by
  have hd := congrArg String.data h
  simp only [skuCacheKey, String.data_append, List.append_assoc] at hd
  exact String.ext (List.append_cancel_left (List.append_cancel_left hd))

theorem mem_dedupFirstAux {x : String} :
    ∀ (l seen : List String), x ∈ dedupFirstAux seen l → x ∈ l := by
  intro l
  induction l with
  | nil => intro seen h; simp [dedupFirstAux] at h
  | cons a rest ih =>
    intro seen h
    rw [dedupFirstAux] at h
    by_cases ha : a ∈ seen
    · rw [if_pos ha] at h
      exact List.mem_cons_of_mem a (ih seen h)
    · rw [if_neg ha] at h
      rcases List.mem_cons.mp h with h | h
      · exact h ▸ List.mem_cons_self a rest
      · exact List.mem_cons_of_mem a (ih (a :: seen) h)

theorem dedupFirstAux_not_mem_seen {x : String} :
    ∀ (l seen : List String), x ∈ dedupFirstAux seen l → x ∉ seen := by
  intro l
  induction l with
  | nil => intro seen h; simp [dedupFirstAux] at h
  | cons a rest ih =>
    intro seen h
    rw [dedupFirstAux] at h
    by_cases ha : a ∈ seen
    · rw [if_pos ha] at h
      exact ih seen h
    · rw [if_neg ha] at h
      rcases List.mem_cons.mp h with h | h
      · exact h ▸ ha
      · intro hx
        exact ih (a :: seen) h (List.mem_cons_of_mem a hx)

theorem dedupFirstAux_nodup : ∀ (l seen : List String), (dedupFirstAux seen l).Nodup := by
  intro l
  induction l with
  | nil => intro seen; simp [dedupFirstAux]
  | cons a rest ih =>
    intro seen
    rw [dedupFirstAux]
    by_cases ha : a ∈ seen
    · rw [if_pos ha]
      exact ih seen
    · rw [if_neg ha]
      refine List.nodup_cons.mpr ⟨?_, ih (a :: seen)⟩
      intro hmem
      exact dedupFirstAux_not_mem_seen rest (a :: seen) hmem
        (List.mem_cons_self a seen)

theorem dedupFirst_nodup (l : List String) : (dedupFirst l).Nodup :=
  dedupFirstAux_nodup l []

theorem scanSkuCache_toQuery_sublist (now : ℕ) (shop : String) :
    ∀ (l : List String) (c : TtlCache (Option IngramSkuMapping)),
      ((scanSkuCache now shop c l).2.2).Sublist l := by
  intro l
  induction l with
  | nil => intro c; simp [scanSkuCache]
  | cons sku rest ih =>
    intro c
    rw [scanSkuCache]
    cases h : (tget now c (skuCacheKey shop sku)).1 with
    | some v =>
      cases v with
      | some m => exact (ih _).cons _
      | none => exact (ih _).cons _
    | none => exact (ih _).cons₂ _

theorem eraseKey_length_le {α : Type} (m : List (String × α)) (k : String) :
    (eraseKey m k).length ≤ m.length := by
  induction m with
  | nil => simp [eraseKey]
  | cons p rest ih =>
    obtain ⟨a, b⟩ := p
    by_cases h : a = k
    · simp [eraseKey, h]
    · simp only [eraseKey, if_neg h, List.length_cons]
      exact Nat.succ_le_succ ih

theorem tget_store_length_le {V : Type} (now : ℕ) (c : TtlCache V) (k : String) :
    ((tget now c k).2).store.length ≤ c.store.length := by
  unfold tget
  cases h : lookupA c.store k with
  | none => simp
  | some entry =>
    by_cases hexp : entry.expiresAt ≤ now
    · simp only [if_pos hexp]
      exact eraseKey_length_le c.store k
    · simp [if_neg hexp]

theorem tget_maxEntries {V : Type} (now : ℕ) (c : TtlCache V) (k : String) :
    ((tget now c k).2).maxEntries = c.maxEntries := by
  unfold tget
  cases h : lookupA c.store k with
  | none => simp
  | some entry =>
    by_cases hexp : entry.expiresAt ≤ now
    · simp [if_pos hexp]
    · simp [if_neg hexp]

theorem scanSkuCache_store_length_le (now : ℕ) (shop : String) :
    ∀ (l : List String) (c : TtlCache (Option IngramSkuMapping)),
      ((scanSkuCache now shop c l).1).store.length ≤ c.store.length := by
  intro l
  induction l with
  | nil => intro c; simp [scanSkuCache]
  | cons sku rest ih =>
    intro c
    rw [scanSkuCache]
    have hstep := tget_store_length_le now c (skuCacheKey shop sku)
    have hrest := ih (tget now c (skuCacheKey shop sku)).2
    cases h : (tget now c (skuCacheKey shop sku)).1 with
    | some v => cases v <;> exact le_trans hrest hstep
    | none => exact le_trans hrest hstep

theorem scanSkuCache_maxEntries (now : ℕ) (shop : String) :
    ∀ (l : List String) (c : TtlCache (Option IngramSkuMapping)),
      ((scanSkuCache now shop c l).1).maxEntries = c.maxEntries := by
  intro l
  induction l with
  | nil => intro c; simp [scanSkuCache]
  | cons sku rest ih =>
    intro c
    rw [scanSkuCache]
    have hrest := ih (tget now c (skuCacheKey shop sku)).2
    have hstep := tget_maxEntries now c (skuCacheKey shop sku)
    cases h : (tget now c (skuCacheKey shop sku)).1 with
    | some v => cases v <;> exact hrest.trans hstep
    | none => exact hrest.trans hstep

theorem tset_store_length_le {V : Type} (now : ℕ) (c : TtlCache V) (k : String)
    (v : V) (t : Option ℕ) :
    (tset now c k v t).store.length ≤ c.store.length + 1 := by
  have hms : (mapSet c.store k ⟨v, now + t.getD c.ttlMs⟩).length ≤
      c.store.length + 1 := by
    rw [mapSet_length]
    by_cases h : k ∈ c.store.map Prod.fst
    · rw [if_pos h]; exact Nat.le_succ _
    · rw [if_neg h]
  simp only [tset]
  by_cases h : c.maxEntries < (mapSet c.store k ⟨v, now + t.getD c.ttlMs⟩).length
  · rw [if_pos h]
    cases hs : mapSet c.store k ⟨v, now + t.getD c.ttlMs⟩ with
    | nil => simp
    | cons p rest =>
      obtain ⟨k0, e0⟩ := p
      simp only [List.head?_cons, eraseKey, if_pos rfl]
      rw [hs] at hms
      simp only [List.length_cons] at hms
      exact le_trans (Nat.le_succ _) hms
  · rw [if_neg h]
    exact hms

theorem tset_maxEntries {V : Type} (now : ℕ) (c : TtlCache V) (k : String)
    (v : V) (t : Option ℕ) : (tset now c k v t).maxEntries = c.maxEntries := rfl

theorem tset_store_no_evict {V : Type} (now : ℕ) (c : TtlCache V) (k : String)
    (v : V) (t : Option ℕ)
    (h : (mapSet c.store k ⟨v, now + t.getD c.ttlMs⟩).length ≤ c.maxEntries) :
    (tset now c k v t).store = mapSet c.store k ⟨v, now + t.getD c.ttlMs⟩ := by
  simp only [tset]
  rw [if_neg (not_lt.mpr h)]

theorem negFold_preserves (now : ℕ) (shop : String) :
    ∀ (l : List String) (c : TtlCache (Option IngramSkuMapping)) (k : String)
      (e : CacheEntry (Option IngramSkuMapping)),
      (∀ s ∈ l, skuCacheKey shop s ≠ k) →
      c.store.length + l.length ≤ c.maxEntries →
      lookupA c.store k = some e →
      lookupA ((l.foldl (fun c' s =>
          tset now c' (skuCacheKey shop s) none
            (some skuCacheNegativeTtlMs)) c).store) k = some e := by
  intro l
  induction l with
  | nil => intro c k e _ _ h; exact h
  | cons s rest ih =>
    intro c k e hne hcap hlk
    simp only [List.foldl_cons]
    have hcap1 : (mapSet c.store (skuCacheKey shop s)
        ⟨none, now + (some skuCacheNegativeTtlMs).getD c.ttlMs⟩).length ≤
        c.maxEntries := by
      have := mapSet_length c.store (skuCacheKey shop s)
        (⟨none, now + (some skuCacheNegativeTtlMs).getD c.ttlMs⟩ :
          CacheEntry (Option IngramSkuMapping))
      rw [this]
      by_cases hmem : skuCacheKey shop s ∈ c.store.map Prod.fst
      · rw [if_pos hmem]
        omega
      · rw [if_neg hmem]
        simp only [List.length_cons] at hcap
        omega
    have hs := tset_store_no_evict now c (skuCacheKey shop s) none
      (some skuCacheNegativeTtlMs) hcap1
    refine ih _ k e (fun x hx => hne x (List.mem_cons_of_mem s hx)) ?_ ?_
    · rw [tset_maxEntries, hs]
      have := mapSet_length c.store (skuCacheKey shop s)
        (⟨none, now + (some skuCacheNegativeTtlMs).getD c.ttlMs⟩ :
          CacheEntry (Option IngramSkuMapping))
      simp only [List.length_cons] at hcap
      by_cases hmem : skuCacheKey shop s ∈ c.store.map Prod.fst
      · rw [this, if_pos hmem]
        omega
      · rw [this, if_neg hmem]
        omega
    · rw [hs, lookupA_mapSet_ne _ _ _ _ (fun hk => hne s (List.mem_cons_self s rest) hk.symm)]
      exact hlk

theorem negFold_lookup (now : ℕ) (shop : String) :
    ∀ (l : List String) (c : TtlCache (Option IngramSkuMapping)),
      (l.map (skuCacheKey shop)).Nodup →
      c.store.length + l.length ≤ c.maxEntries →
      ∀ sku ∈ l,
        lookupA ((l.foldl (fun c' s =>
            tset now c' (skuCacheKey shop s) none
              (some skuCacheNegativeTtlMs)) c).store) (skuCacheKey shop sku) =
          some ⟨none, now + skuCacheNegativeTtlMs⟩ := by
  intro l
  induction l with
  | nil => intro c _ _ sku h; simp at h
  | cons s rest ih =>
    intro c hnd hcap sku hsku
    simp only [List.map_cons, List.nodup_cons] at hnd
    simp only [List.foldl_cons]
    have hcap1 : (mapSet c.store (skuCacheKey shop s)
        ⟨none, now + (some skuCacheNegativeTtlMs).getD c.ttlMs⟩).length ≤
        c.maxEntries := by
      have := mapSet_length c.store (skuCacheKey shop s)
        (⟨none, now + (some skuCacheNegativeTtlMs).getD c.ttlMs⟩ :
          CacheEntry (Option IngramSkuMapping))
      rw [this]
      simp only [List.length_cons] at hcap
      by_cases hmem : skuCacheKey shop s ∈ c.store.map Prod.fst
      · rw [if_pos hmem]; omega
      · rw [if_neg hmem]; omega
    have hs := tset_store_no_evict now c (skuCacheKey shop s) none
      (some skuCacheNegativeTtlMs) hcap1
    have hlen' : (tset now c (skuCacheKey shop s) none
        (some skuCacheNegativeTtlMs)).store.length + rest.length ≤
        (tset now c (skuCacheKey shop s) none
          (some skuCacheNegativeTtlMs)).maxEntries := by
      rw [tset_maxEntries, hs]
      have := mapSet_length c.store (skuCacheKey shop s)
        (⟨none, now + (some skuCacheNegativeTtlMs).getD c.ttlMs⟩ :
          CacheEntry (Option IngramSkuMapping))
      simp only [List.length_cons] at hcap
      by_cases hmem : skuCacheKey shop s ∈ c.store.map Prod.fst
      · rw [this, if_pos hmem]; omega
      · rw [this, if_neg hmem]; omega
    rcases List.mem_cons.mp hsku with heq | hmem
    · subst heq
      refine negFold_preserves now shop rest _ _ _ ?_ hlen' ?_
      · intro x hx hk
        exact hnd.1 (List.mem_map.mpr ⟨x, hx, hk⟩)
      · rw [hs]
        have := lookupA_mapSet_self c.store (skuCacheKey shop sku)
          (⟨none, now + (some skuCacheNegativeTtlMs).getD c.ttlMs⟩ :
            CacheEntry (Option IngramSkuMapping))
        simpa using this
    · exact ih _ hnd.2 hlen' sku hmem

theorem dbFold_bounds (now : ℕ) (shop : String) :
    ∀ (l : List IngramSkuMapping) (c : TtlCache (Option IngramSkuMapping)),
      ((l.foldl (fun c' m =>
          tset now c' (skuCacheKey shop m.sku) (some m) none) c).store).length ≤
          c.store.length + l.length ∧
        (l.foldl (fun c' m =>
          tset now c' (skuCacheKey shop m.sku) (some m) none) c).maxEntries =
          c.maxEntries := by
  intro l
  induction l with
  | nil => intro c; simp
  | cons m rest ih =>
    intro c
    simp only [List.foldl_cons, List.length_cons]
    have hstep := tset_store_length_le now c (skuCacheKey shop m.sku) (some m) none
    have hmax := tset_maxEntries now c (skuCacheKey shop m.sku) (some m) none
    rcases ih (tset now c (skuCacheKey shop m.sku) (some m) none) with ⟨h1, h2⟩
    exact ⟨by omega, h2.trans hmax⟩

/-- C6: with remote fallback disallowed, the resolver issues no Supabase
query (first conjunct: the remote-query flag is `false`), returns exactly
the cache hits followed by the local-store hits — so only successfully
resolved mappings, never entries for unresolved SKUs (second conjunct) —
and caches every SKU still unresolved after the cache and local store as a
negative entry expiring after the short 1-minute TTL (third conjunct).  The
capacity hypothesis keeps the size-bound eviction of the shared cache out
of the way, as in the production configuration (10000 entries). -/
theorem getIngramMappingsForSkus_no_fallback (now : ℕ)
    (cache0 : TtlCache (Option IngramSkuMapping)) (shop : String)
    (skus : List String) (prismaUp : Bool)
    (prismaTable : List IngramSkuMapping)
    (supa : Except Unit (List IngramSkuMapping))
    (hcap : cache0.store.length + (normalizeSkus skus).length +
        prismaTable.length ≤ cache0.maxEntries) :
    ((getIngramMappingsForSkus now cache0 shop skus false prismaUp prismaTable
        supa).2.2 = false) ∧
      ((getIngramMappingsForSkus now cache0 shop skus false prismaUp
          prismaTable supa).1 =
        Except.ok ((scanSkuCache now shop cache0 (normalizeSkus skus)).2.1 ++
          dbMappingsFor prismaUp prismaTable
            (scanSkuCache now shop cache0 (normalizeSkus skus)).2.2)) ∧
      (∀ sku ∈ missingFrom
          (dbMappingsFor prismaUp prismaTable
            (scanSkuCache now shop cache0 (normalizeSkus skus)).2.2)
          (scanSkuCache now shop cache0 (normalizeSkus skus)).2.2,
        lookupA ((getIngramMappingsForSkus now cache0 shop skus false prismaUp
            prismaTable supa).2.1).store (skuCacheKey shop sku) =
          some ⟨none, now + skuCacheNegativeTtlMs⟩) := by
  by_cases h0 : skus.isEmpty
  · have hskus : skus = [] := by
      cases skus with
      | nil => rfl
      | cons a l => simp [List.isEmpty] at h0
    subst hskus
    refine ⟨?_, ?_, ?_⟩ <;>
      simp [getIngramMappingsForSkus, normalizeSkus, dedupFirst, scanSkuCache,
        dbMappingsFor, missingFrom]
  · by_cases h1 : ((scanSkuCache now shop cache0 (normalizeSkus skus)).2.2).isEmpty
    · have htq : (scanSkuCache now shop cache0 (normalizeSkus skus)).2.2 = [] := by
        cases hq : (scanSkuCache now shop cache0 (normalizeSkus skus)).2.2 with
        | nil => rfl
        | cons a l => rw [hq] at h1; simp [List.isEmpty] at h1
      have hbranch :
          getIngramMappingsForSkus now cache0 shop skus false prismaUp
              prismaTable supa =
            (Except.ok (scanSkuCache now shop cache0 (normalizeSkus skus)).2.1,
              (scanSkuCache now shop cache0 (normalizeSkus skus)).1, false) := by
        simp only [getIngramMappingsForSkus, if_neg h0, if_pos h1]
      refine ⟨by rw [hbranch], ?_, ?_⟩
      · rw [hbranch, htq]
        unfold dbMappingsFor
        by_cases hp : prismaUp <;> simp [hp]
      · intro sku hsku
        rw [htq] at hsku
        simp [missingFrom] at hsku
    · by_cases h2 : (missingFrom
          (dbMappingsFor prismaUp prismaTable
            (scanSkuCache now shop cache0 (normalizeSkus skus)).2.2)
          (scanSkuCache now shop cache0 (normalizeSkus skus)).2.2).isEmpty
      · have hm : missingFrom
            (dbMappingsFor prismaUp prismaTable
              (scanSkuCache now shop cache0 (normalizeSkus skus)).2.2)
            (scanSkuCache now shop cache0 (normalizeSkus skus)).2.2 = [] := by
          cases hq : missingFrom
              (dbMappingsFor prismaUp prismaTable
                (scanSkuCache now shop cache0 (normalizeSkus skus)).2.2)
              (scanSkuCache now shop cache0 (normalizeSkus skus)).2.2 with
          | nil => rfl
          | cons a l => rw [hq] at h2; simp [List.isEmpty] at h2
        have hbranch :
            getIngramMappingsForSkus now cache0 shop skus false prismaUp
                prismaTable supa =
              (Except.ok
                  ((scanSkuCache now shop cache0 (normalizeSkus skus)).2.1 ++
                    dbMappingsFor prismaUp prismaTable
                      (scanSkuCache now shop cache0 (normalizeSkus skus)).2.2),
                (dbMappingsFor prismaUp prismaTable
                    (scanSkuCache now shop cache0 (normalizeSkus skus)).2.2).foldl
                  (fun c m =>
                    tset now c (skuCacheKey shop m.sku) (some m) none)
                  (scanSkuCache now shop cache0 (normalizeSkus skus)).1,
                false) := by
          simp only [getIngramMappingsForSkus, if_neg h0, if_neg h1, if_pos h2]
        refine ⟨by rw [hbranch], by rw [hbranch], ?_⟩
        intro sku hsku
        rw [hm] at hsku
        simp at hsku
      · have hbranch :
            getIngramMappingsForSkus now cache0 shop skus false prismaUp
                prismaTable supa =
              (Except.ok
                  ((scanSkuCache now shop cache0 (normalizeSkus skus)).2.1 ++
                    dbMappingsFor prismaUp prismaTable
                      (scanSkuCache now shop cache0 (normalizeSkus skus)).2.2),
                (missingFrom
                    (dbMappingsFor prismaUp prismaTable
                      (scanSkuCache now shop cache0 (normalizeSkus skus)).2.2)
                    (scanSkuCache now shop cache0 (normalizeSkus skus)).2.2).foldl
                  (fun c sku =>
                    tset now c (skuCacheKey shop sku) none
                      (some skuCacheNegativeTtlMs))
                  ((dbMappingsFor prismaUp prismaTable
                      (scanSkuCache now shop cache0 (normalizeSkus skus)).2.2).foldl
                    (fun c m =>
                      tset now c (skuCacheKey shop m.sku) (some m) none)
                    (scanSkuCache now shop cache0 (normalizeSkus skus)).1),
                false) := by
          simp only [getIngramMappingsForSkus, if_neg h0, if_neg h1, if_neg h2,
            eq_self_iff_true, ite_true]
        rw [hbranch]
        refine ⟨rfl, rfl, ?_⟩
        intro sku hsku
        have hnorm_nodup : (normalizeSkus skus).Nodup := dedupFirst_nodup _
        have htq_sub := scanSkuCache_toQuery_sublist now shop
          (normalizeSkus skus) cache0
        have hmiss_sub : (missingFrom
            (dbMappingsFor prismaUp prismaTable
              (scanSkuCache now shop cache0 (normalizeSkus skus)).2.2)
            (scanSkuCache now shop cache0 (normalizeSkus skus)).2.2).Sublist
            (normalizeSkus skus) :=
          (List.filter_sublist _).trans htq_sub
        have hmiss_nodup := hmiss_sub.nodup hnorm_nodup
        have hkeys : ((missingFrom
            (dbMappingsFor prismaUp prismaTable
              (scanSkuCache now shop cache0 (normalizeSkus skus)).2.2)
            (scanSkuCache now shop cache0 (normalizeSkus skus)).2.2).map
              (skuCacheKey shop)).Nodup :=
          hmiss_nodup.map (fun a b h => skuCacheKey_inj shop a b h)
        have hdb_len : (dbMappingsFor prismaUp prismaTable
            (scanSkuCache now shop cache0 (normalizeSkus skus)).2.2).length ≤
            prismaTable.length := by
          unfold dbMappingsFor
          by_cases hp : prismaUp <;> simp [hp, List.length_filter_le]
        rcases dbFold_bounds now shop
            (dbMappingsFor prismaUp prismaTable
              (scanSkuCache now shop cache0 (normalizeSkus skus)).2.2)
            (scanSkuCache now shop cache0 (normalizeSkus skus)).1 with
          ⟨hc2len, hc2max⟩
        have hscan_len := scanSkuCache_store_length_le now shop
          (normalizeSkus skus) cache0
        have hscan_max := scanSkuCache_maxEntries now shop
          (normalizeSkus skus) cache0
        have hmiss_len : (missingFrom
            (dbMappingsFor prismaUp prismaTable
              (scanSkuCache now shop cache0 (normalizeSkus skus)).2.2)
            (scanSkuCache now shop cache0 (normalizeSkus skus)).2.2).length ≤
            (normalizeSkus skus).length := hmiss_sub.length_le
        refine negFold_lookup now shop _ _ hkeys ?_ sku hsku
        rw [hc2max, hscan_max]
        omega

theorem getIngramMappingsForSkus_no_fallback_witness :
    ((⟨300000, 10000, []⟩ : TtlCache (Option IngramSkuMapping)).store.length +
        (normalizeSkus ["a1"]).length + ([] : List IngramSkuMapping).length ≤
        (⟨300000, 10000, []⟩ : TtlCache (Option IngramSkuMapping)).maxEntries) ∧
      ((getIngramMappingsForSkus 0 ⟨300000, 10000, []⟩ "s" ["a1"] false false []
          (Except.ok [])).2.2 = false) ∧
      ((getIngramMappingsForSkus 0 ⟨300000, 10000, []⟩ "s" ["a1"] false false []
          (Except.ok [])).1 =
        Except.ok
          ((scanSkuCache 0 "s" ⟨300000, 10000, []⟩ (normalizeSkus ["a1"])).2.1 ++
            dbMappingsFor false []
              (scanSkuCache 0 "s" ⟨300000, 10000, []⟩
                (normalizeSkus ["a1"])).2.2)) ∧
      (∀ sku ∈ missingFrom
          (dbMappingsFor false []
            (scanSkuCache 0 "s" ⟨300000, 10000, []⟩ (normalizeSkus ["a1"])).2.2)
          (scanSkuCache 0 "s" ⟨300000, 10000, []⟩ (normalizeSkus ["a1"])).2.2,
        lookupA ((getIngramMappingsForSkus 0 ⟨300000, 10000, []⟩ "s" ["a1"]
            false false [] (Except.ok [])).2.1).store (skuCacheKey "s" sku) =
          some ⟨none, 0 + skuCacheNegativeTtlMs⟩) :=
  ⟨by decide,
    getIngramMappingsForSkus_no_fallback 0 ⟨300000, 10000, []⟩ "s" ["a1"]
      false [] (Except.ok []) (by decide)⟩

/-! ## Cart estimate endpoint (src/app/routes/api.cart-estimate.ts) -/

/-- The request body's address block. -/
structure CartAddress where
  country : String
  province : Option String
  city : Option String
  zip : Option String
deriving DecidableEq

/-- One cart item of the request body. -/
structure CartItem where
  sku : Option String
  quantity : ℤ
  grams : Option ℤ
deriving DecidableEq

/-- The `CartEstimateRequest` body (lines 33-46); a missing `shop` string is
modelled as the empty string (the only falsy JSON string). -/
structure CartEstimateRequest where
  shop : String
  address : Option CartAddress
  items : List CartItem
deriving DecidableEq

/-- One rate of the simplified cart response. -/
structure CartRate where
  name : String
  code : String
  price : ℚ
  currency : String
  description : String
deriving DecidableEq

/-- The `CartEstimateResponse` body (lines 48-58). -/
structure CartEstimateResponse where
  success : Bool
  rates : Option (List CartRate)
  error : Option String
deriving DecidableEq

/-- A per-shop carrier configuration row (`CarrierConfig`, ingram.server.ts
lines 445-452). -/
structure CarrierConfig where
  carrierCode : String
  carrierName : String
  carrierMode : String
  displayName : Option String
  enabled : Bool
  sortOrder : ℤ
deriving DecidableEq

/-- The settled outcomes of everything the `action` handler awaits.  Each
field is the result of one collaborator call, `.error` meaning the awaited
promise rejected (any thrown error reaches the handler's `catch`).  The
freight outcome is the awaited result of `requestFreightEstimate`, whose own
state machine is modelled above. -/
structure CartEnv where
  bodyOutcome : Except Unit CartEstimateRequest
  credsOutcome : Except Unit Bool
  mappingsOutcome : Except Unit (List IngramSkuMapping)
  freightOutcome : Except Unit FreightOutcome
  hasConfigsOutcome : Except Unit Bool
  enabledCodesOutcome : Except Unit (List String)
  carrierConfigsOutcome : Except Unit (List CarrierConfig)

/-- Lines 127-133: trimmed, de-duplicated cart SKUs (empty and absent SKUs
dropped). -/
def uniqueSkusOf (items : List CartItem) : List String :=
  dedupFirst
    (items.filterMap (fun i =>
      match i.sku with
      | none => none
      | some s => if trimS s = "" then none else some (trimS s)))

/-- Line 148: cart SKUs without a resolved mapping (the record built by
`mappingArrayToRecord` holds an entry exactly for each mapped SKU). -/
def missingSkusOf (uniqueSkus : List String)
    (mappings : List IngramSkuMapping) : List String :=
  uniqueSkus.filter (fun sku => decide (¬ ∃ m ∈ mappings, m.sku = sku))

/-- Lines 189-190: `freightSummary.currencyCode || "USD"`. -/
def freightCurrency (o : FreightOutcome) : String :=
  match o.response.freightEstimateResponse with
  | none => "USD"
  | some s =>
    match s.currencyCode with
    | none => "USD"
    | some cc => if cc = "" then "USD" else cc

/-- Line 191: `freightSummary?.distribution ?? []`. -/
def freightDistributions (o : FreightOutcome) : List IngramDistribution :=
  match o.response.freightEstimateResponse with
  | none => []
  | some s => s.distribution.getD []

/-- Lines 229-244: format one combined rate for the cart response; the
config map keeps the last entry per carrier code (JS `Map` construction),
and `parseInt(total_price, 10) / 100` recovers the integer minor units the
formatter just rendered, modelled directly on the integer. -/
def toCartRate (configs : List CarrierConfig) (currency : String)
    (rate : CombinedRate) : CartRate :=
  let config := (configs.reverse).find? (fun c => c.carrierCode == rate.carrierCode)
  let formatted := formatRateForShopify rate currency
    (config.bind (fun c => c.displayName))
  ⟨formatted.service_name, formatted.service_code,
    ((max 0 (jsRound (rate.totalCharge * 100)) : ℤ) : ℚ) / 100, currency,
    formatted.description⟩

/-- The ascending price comparator of line 245 (stable JS sort). -/
def cartPriceLE (a b : CartRate) : Prop := a.price ≤ b.price

instance : DecidableRel cartPriceLE := fun a b =>
  inferInstanceAs (Decidable (a.price ≤ b.price))

instance : IsTotal CartRate cartPriceLE := ⟨fun a b => le_total a.price b.price⟩

instance : IsTrans CartRate cartPriceLE :=
  ⟨fun _ _ _ hab hbc => le_trans hab hbc⟩

/-- The `try` block of the `action` handler (lines 92-251): every early
`return Response.json(...)` is an `Except.ok (status, body)`; a rejection of
any awaited call propagates as `Except.error` to the surrounding `catch`. -/
def cartEstimateBody (env : CartEnv) : Except Unit (ℕ × CartEstimateResponse) :=
  match env.bodyOutcome with
  | Except.error e => Except.error e
  | Except.ok body =>
    if body.shop = "" then
      Except.ok (400, ⟨false, none, some "Missing shop domain"⟩)
    else
      match body.address with
      | none => Except.ok (400, ⟨false, none, some "Missing address information"⟩)
      | some address =>
        if address.country = "" then
          Except.ok (400, ⟨false, none, some "Missing address information"⟩)
        else if body.items.isEmpty then
          Except.ok (400, ⟨false, none, some "No items in cart"⟩)
        else
          match env.credsOutcome with
          | Except.error e => Except.error e
          | Except.ok hasCreds =>
            if hasCreds then
              if (uniqueSkusOf body.items).isEmpty then
                Except.ok (400, ⟨false, none, some "No valid SKUs in cart"⟩)
              else
                match env.mappingsOutcome with
                | Except.error e => Except.error e
                | Except.ok mappings =>
                  if (missingSkusOf (uniqueSkusOf body.items) mappings).isEmpty then
                    match env.freightOutcome with
                    | Except.error e => Except.error e
                    | Except.ok freight =>
                      if (freightDistributions freight).isEmpty then
                        Except.ok (200,
                          ⟨false, none,
                            some "No shipping options available for this address"⟩)
                      else
                        if (combineRates (freightDistributions freight)).isEmpty then
                          Except.ok (200,
                            ⟨false, none,
                              some "No common shipping options available"⟩)
                        else
                          match env.hasConfigsOutcome with
                          | Except.error e => Except.error e
                          | Except.ok hasConfigs =>
                            match
                              (if hasConfigs then
                                match env.enabledCodesOutcome with
                                | Except.error e => Except.error e
                                | Except.ok codes =>
                                  Except.ok
                                    ((combineRates (freightDistributions freight)).filter
                                      (fun r => decide (r.carrierCode ∈ codes)))
                              else
                                Except.ok (combineRates (freightDistributions freight))) with
                            | Except.error e => Except.error e
                            | Except.ok filtered =>
                              match env.carrierConfigsOutcome with
                              | Except.error e => Except.error e
                              | Except.ok configs =>
                                Except.ok (200,
                                  ⟨true,
                                    some
                                      (((filtered.map
                                          (toCartRate configs (freightCurrency freight))).insertionSort
                                          cartPriceLE).take 5),
                                    none⟩)
                  else
                    Except.ok (200,
                      ⟨false, none,
                        some "Some products are not available for shipping estimate"⟩)
            else Except.ok (400, ⟨false, none, some "Shop not configured"⟩)

/-- The full `action` handler: the `catch` of lines 252-261 converts any
thrown error into a 200 response with a safe body. -/
def cartEstimateAction (env : CartEnv) : ℕ × CartEstimateResponse :=
  match cartEstimateBody env with
  | Except.ok r => r
  | Except.error _ =>
    (200, ⟨false, none, some "Unable to calculate shipping estimate"⟩)

/-- C7: the checkout-facing cart-estimate endpoint answers a mapping gap
(first conjunct), a zero-distribution outcome (second), a
no-complete-carrier outcome (third), and any internal error — a rejected
body parse (fourth) or a rejected freight call (fifth) — with HTTP status
200 and a `success = false` body carrying an error message, never with a
failing HTTP status. -/
theorem cartEstimateAction_safe_outcomes :
    (∀ (env : CartEnv) (body : CartEstimateRequest) (address : CartAddress)
        (mappings : List IngramSkuMapping),
        env.bodyOutcome = Except.ok body → body.shop ≠ "" →
        body.address = some address → address.country ≠ "" →
        body.items.isEmpty = false → env.credsOutcome = Except.ok true →
        (uniqueSkusOf body.items).isEmpty = false →
        env.mappingsOutcome = Except.ok mappings →
        (missingSkusOf (uniqueSkusOf body.items) mappings).isEmpty = false →
        cartEstimateAction env =
          (200, ⟨false, none,
            some "Some products are not available for shipping estimate"⟩)) ∧
      (∀ (env : CartEnv) (body : CartEstimateRequest) (address : CartAddress)
          (mappings : List IngramSkuMapping) (freight : FreightOutcome),
          env.bodyOutcome = Except.ok body → body.shop ≠ "" →
          body.address = some address → address.country ≠ "" →
          body.items.isEmpty = false → env.credsOutcome = Except.ok true →
          (uniqueSkusOf body.items).isEmpty = false →
          env.mappingsOutcome = Except.ok mappings →
          (missingSkusOf (uniqueSkusOf body.items) mappings).isEmpty = true →
          env.freightOutcome = Except.ok freight →
          freightDistributions freight = [] →
          cartEstimateAction env =
            (200, ⟨false, none,
              some "No shipping options available for this address"⟩)) ∧
      (∀ (env : CartEnv) (body : CartEstimateRequest) (address : CartAddress)
          (mappings : List IngramSkuMapping) (freight : FreightOutcome),
          env.bodyOutcome = Except.ok body → body.shop ≠ "" →
          body.address = some address → address.country ≠ "" →
          body.items.isEmpty = false → env.credsOutcome = Except.ok true →
          (uniqueSkusOf body.items).isEmpty = false →
          env.mappingsOutcome = Except.ok mappings →
          (missingSkusOf (uniqueSkusOf body.items) mappings).isEmpty = true →
          env.freightOutcome = Except.ok freight →
          (freightDistributions freight).isEmpty = false →
          combineRates (freightDistributions freight) = [] →
          cartEstimateAction env =
            (200, ⟨false, none, some "No common shipping options available"⟩)) ∧
      (∀ (env : CartEnv) (e : Unit), env.bodyOutcome = Except.error e →
          cartEstimateAction env =
            (200, ⟨false, none, some "Unable to calculate shipping estimate"⟩)) ∧
      (∀ (env : CartEnv) (body : CartEstimateRequest) (address : CartAddress)
          (mappings : List IngramSkuMapping) (e : Unit),
          env.bodyOutcome = Except.ok body → body.shop ≠ "" →
          body.address = some address → address.country ≠ "" →
          body.items.isEmpty = false → env.credsOutcome = Except.ok true →
          (uniqueSkusOf body.items).isEmpty = false →
          env.mappingsOutcome = Except.ok mappings →
          (missingSkusOf (uniqueSkusOf body.items) mappings).isEmpty = true →
          env.freightOutcome = Except.error e →
          cartEstimateAction env =
            (200, ⟨false, none,
              some "Unable to calculate shipping estimate"⟩)) := by
  refine ⟨?_, ?_, ?_, ?_, ?_⟩
  · intro env body address mappings hbody hshop haddr hcountry hitems hcreds
      huniq hmap hmiss
    simp only [cartEstimateAction, cartEstimateBody, hbody, haddr, hcreds, hmap,
      if_neg hshop, if_neg hcountry, hitems, huniq, hmiss]
    simp
  · intro env body address mappings freight hbody hshop haddr hcountry hitems
      hcreds huniq hmap hmiss hfre hdist
    simp only [cartEstimateAction, cartEstimateBody, hbody, haddr, hcreds, hmap,
      hfre, if_neg hshop, if_neg hcountry, hitems, huniq, hmiss, hdist]
    simp
  · intro env body address mappings freight hbody hshop haddr hcountry hitems
      hcreds huniq hmap hmiss hfre hdist hcomb
    simp only [cartEstimateAction, cartEstimateBody, hbody, haddr, hcreds, hmap,
      hfre, if_neg hshop, if_neg hcountry, hitems, huniq, hmiss, hdist, hcomb]
    simp
  · intro env e hbody
    simp only [cartEstimateAction, cartEstimateBody, hbody]
  · intro env body address mappings e hbody hshop haddr hcountry hitems hcreds
      huniq hmap hmiss hfre
    simp only [cartEstimateAction, cartEstimateBody, hbody, haddr, hcreds, hmap,
      hfre, if_neg hshop, if_neg hcountry, hitems, huniq, hmiss]
    simp

theorem cartEstimateAction_safe_outcomes_witness :
    ((⟨Except.ok ⟨"shop", some ⟨"US", none, none, none⟩,
            [⟨some "sku1", 1, none⟩]⟩,
        Except.ok true, Except.ok [], Except.error (), Except.error (),
        Except.error (), Except.error ()⟩ : CartEnv).bodyOutcome =
        Except.ok ⟨"shop", some ⟨"US", none, none, none⟩,
          [⟨some "sku1", 1, none⟩]⟩ ∧
      ("shop" : String) ≠ "" ∧
      (⟨"shop", some ⟨"US", none, none, none⟩,
          [⟨some "sku1", 1, none⟩]⟩ : CartEstimateRequest).address =
        some ⟨"US", none, none, none⟩ ∧
      ("US" : String) ≠ "" ∧
      ([⟨some "sku1", 1, none⟩] : List CartItem).isEmpty = false ∧
      (uniqueSkusOf [⟨some "sku1", 1, none⟩]).isEmpty = false ∧
      (missingSkusOf (uniqueSkusOf [⟨some "sku1", 1, none⟩]) []).isEmpty =
        false) ∧
      cartEstimateAction
          ⟨Except.ok ⟨"shop", some ⟨"US", none, none, none⟩,
              [⟨some "sku1", 1, none⟩]⟩,
            Except.ok true, Except.ok [], Except.error (), Except.error (),
            Except.error (), Except.error ()⟩ =
        (200, ⟨false, none,
          some "Some products are not available for shipping estimate"⟩) :=
  ⟨⟨rfl, by decide, rfl, by decide, by decide, by decide, by decide⟩,
    cartEstimateAction_safe_outcomes.1
      ⟨Except.ok ⟨"shop", some ⟨"US", none, none, none⟩,
          [⟨some "sku1", 1, none⟩]⟩,
        Except.ok true, Except.ok [], Except.error (), Except.error (),
        Except.error (), Except.error ()⟩
      ⟨"shop", some ⟨"US", none, none, none⟩, [⟨some "sku1", 1, none⟩]⟩
      ⟨"US", none, none, none⟩ [] rfl (by decide) rfl (by decide) (by decide)
      rfl (by decide) rfl (by decide)⟩

/-! ## Multi-distribution aggregation analysis (for the completeness and
duplicate-tie-break claims) -/

/-- One step of the per-distribution selection the carrier map performs for
a fixed carrier code: the first strictly-cheaper entry wins the branch cell
(lines 126-135 distilled to a single distribution). -/
def selStep (code : String) (acc : Option BranchCharge) (c : IngramCarrier) :
    Option BranchCharge :=
  if trimS c.carrierCode = code then
    match acc with
    | none => some ⟨c.estimatedFreightCharge, c.daysInTransit⟩
    | some cur =>
      if c.estimatedFreightCharge < cur.charge then
        some ⟨c.estimatedFreightCharge, c.daysInTransit⟩
      else acc
  else acc

/-- The entry a single distribution contributes for a carrier code: charge
and transit days of its first minimal-charge occurrence, or `none` when the
code does not occur. -/
def selectEntry (code : String) (l : List IngramCarrier) : Option BranchCharge :=
  l.foldl (selStep code) none

/-- The branch map the carrier map holds for one code (empty when the code
is absent). -/
def aggDists (m : List (String × CarrierAgg)) (code : String) :
    List (String × BranchCharge) :=
  ((lookupA m code).map (fun a => a.distributions)).getD []

/-- The per-branch contributions of a carrier code over a distribution
list, in order: one entry per distribution in which the code occurs. -/
def contrib (code : String) (dists : List IngramDistribution) :
    List (String × BranchCharge) :=
  dists.filterMap (fun d =>
    (selectEntry code d.carrierList).map (fun v => (d.shipFromBranchNumber, v)))

/-- The charges of a carrier code's entries within one carrier list. -/
def distCharges (code : String) (l : List IngramCarrier) : List ℚ :=
  (l.filter (fun c => decide (trimS c.carrierCode = code))).map
    (fun c => c.estimatedFreightCharge)

/-- The minimum of a list of rationals (`none` on the empty list). -/
def minQ : List ℚ → Option ℚ
  | [] => none
  | q :: rest => some ((minQ rest).elim q (fun m => min q m))

/-- The branch-map fragment contributed by one cell: nothing, or a single
entry at branch `b`. -/
def optCell (b : String) : Option BranchCharge → List (String × BranchCharge)
  | none => []
  | some v => [(b, v)]

theorem aggDists_inner (code : String) (hcode : code ≠ "") (b : String) :
    ∀ (l : List IngramCarrier) (m : List (String × CarrierAgg))
      (D : List (String × BranchCharge)) (cur : Option BranchCharge),
      aggDists m code = D ++ optCell b cur →
      lookupA D b = none →
      aggDists (l.foldl (processCarrier b) m) code =
        D ++ optCell b (l.foldl (selStep code) cur) := by
  intro l
  induction l with
  | nil => intro m D cur hshape hD; exact hshape
  | cons c rest ih =>
    intro m D cur hshape hD
    simp only [List.foldl_cons]
    have hstep : aggDists (processCarrier b m c) code =
        D ++ optCell b (selStep code cur c) := by
      by_cases hc0 : trimS c.carrierCode = ""
      · have hne : trimS c.carrierCode ≠ code := by
          rw [hc0]
          exact fun h => hcode h.symm
        have h1 : processCarrier b m c = m := by
          simp [processCarrier, hc0]
        have h2 : selStep code cur c = cur := by
          simp [selStep, hne]
        rw [h1, h2]
        exact hshape
      · by_cases hcc : trimS c.carrierCode = code
        · subst hcc
          cases hl : lookupA m (trimS c.carrierCode) with
          | none =>
            have hagg : aggDists m (trimS c.carrierCode) = [] := by
              simp [aggDists, hl]
            rw [hagg] at hshape
            have hD0 : D = [] := (List.append_eq_nil.mp hshape.symm).1
            have hcur : cur = none := by
              cases cur with
              | none => rfl
              | some v =>
                rw [hD0] at hshape
                simp [optCell] at hshape
            subst hD0
            subst hcur
            have hps : processCarrier b m c =
                m ++ [(trimS c.carrierCode,
                  ⟨if trimS c.shipVia = "" then trimS c.carrierCode
                    else trimS c.shipVia,
                    trimS c.carrierMode,
                    upsertLower b c.estimatedFreightCharge c.daysInTransit []⟩)] := by
              simp only [processCarrier, if_neg hc0, hl]
            have hsel : selStep (trimS c.carrierCode) none c =
                some ⟨c.estimatedFreightCharge, c.daysInTransit⟩ := by
              simp [selStep]
            rw [hps, hsel]
            rw [aggDists, lookupA_append, hl]
            simp [lookupA, upsertLower, optCell]
          | some agg =>
            have hagg : agg.distributions = D ++ optCell b cur := by
              have hx : aggDists m (trimS c.carrierCode) = agg.distributions := by
                simp [aggDists, hl]
              rw [← hx]
              exact hshape
            have hps : processCarrier b m c =
                mapSet m (trimS c.carrierCode)
                  { agg with
                    distributions := (upsertLower b c.estimatedFreightCharge
                      c.daysInTransit agg.distributions) } := by
              simp only [processCarrier, if_neg hc0, hl]
            have hlook : aggDists (mapSet m (trimS c.carrierCode)
                { agg with
                  distributions := (upsertLower b c.estimatedFreightCharge
                    c.daysInTransit agg.distributions) }) (trimS c.carrierCode) =
                upsertLower b c.estimatedFreightCharge c.daysInTransit
                  agg.distributions := by
              rw [aggDists, lookupA_mapSet_self]
              rfl
            cases cur with
            | none =>
              have hsel : selStep (trimS c.carrierCode) none c =
                  some ⟨c.estimatedFreightCharge, c.daysInTransit⟩ := by
                simp [selStep]
              rw [hps, hsel, hlook, hagg, upsertLower]
              simp only [optCell, List.append_nil]
              rw [hD]
            | some v =>
              have hsel : selStep (trimS c.carrierCode) (some v) c =
                  (if c.estimatedFreightCharge < v.charge then
                    some ⟨c.estimatedFreightCharge, c.daysInTransit⟩
                  else some v) := by
                simp [selStep]
              rw [hps, hsel, hlook, hagg, upsertLower]
              simp only [optCell]
              have hlk : lookupA (D ++ [(b, v)]) b = some v := by
                rw [lookupA_append, hD]
                simp [lookupA]
              rw [hlk]
              dsimp only
              by_cases hlt : c.estimatedFreightCharge < v.charge
              · rw [if_pos hlt, if_pos hlt]
                rw [mapSet_append_of_lookupA_none _ _ _ _ hD]
                simp [mapSet, optCell]
              · rw [if_neg hlt, if_neg hlt]
        · have hsel : selStep code cur c = cur := by
            simp [selStep, hcc]
          rw [hsel]
          have hlk : lookupA (processCarrier b m c) code = lookupA m code := by
            simp only [processCarrier, if_neg hc0]
            cases hl : lookupA m (trimS c.carrierCode) with
            | none =>
              rw [lookupA_append]
              cases hmc : lookupA m code with
              | some v => rfl
              | none =>
                simp only [lookupA]
                rw [if_neg hcc]
            | some agg =>
              exact lookupA_mapSet_ne _ _ _ _ (fun h => hcc h.symm)
          rw [aggDists, hlk, ← aggDists]
          exact hshape
    exact ih (processCarrier b m c) D (selStep code cur c) hstep hD

theorem aggDists_addDistribution (code : String) (hcode : code ≠ "")
    (m : List (String × CarrierAgg)) (d : IngramDistribution)
    (hfresh : lookupA (aggDists m code) d.shipFromBranchNumber = none) :
    aggDists (addDistribution m d) code =
      aggDists m code ++
        optCell d.shipFromBranchNumber (selectEntry code d.carrierList) := by
  refine aggDists_inner code hcode d.shipFromBranchNumber d.carrierList m
    (aggDists m code) none ?_ hfresh
  simp [optCell]

theorem contrib_cons (code : String) (d : IngramDistribution)
    (rest : List IngramDistribution) :
    contrib code (d :: rest) =
      optCell d.shipFromBranchNumber (selectEntry code d.carrierList) ++
        contrib code rest := by
  cases hse : selectEntry code d.carrierList <;>
    simp [contrib, List.filterMap_cons, hse, optCell]

theorem aggDists_foldl_addDistribution (code : String) (hcode : code ≠ "") :
    ∀ (dists : List IngramDistribution) (m : List (String × CarrierAgg)),
      (dists.map (fun d => d.shipFromBranchNumber)).Nodup →
      (∀ d ∈ dists, lookupA (aggDists m code) d.shipFromBranchNumber = none) →
      aggDists (dists.foldl addDistribution m) code =
        aggDists m code ++ contrib code dists := by
  intro dists
  induction dists with
  | nil => intro m _ _; simp [contrib]
  | cons d rest ih =>
    intro m hnd hfresh
    simp only [List.foldl_cons]
    have hstep := aggDists_addDistribution code hcode m d
      (hfresh d (List.mem_cons_self d rest))
    simp only [List.map_cons, List.nodup_cons] at hnd
    have hfresh' : ∀ d' ∈ rest,
        lookupA (aggDists (addDistribution m d) code)
          d'.shipFromBranchNumber = none := by
      intro d' hd'
      rw [hstep, lookupA_append,
        hfresh d' (List.mem_cons_of_mem d hd')]
      cases hse : selectEntry code d.carrierList with
      | none => simp [optCell, lookupA]
      | some v =>
        have hnedd : d.shipFromBranchNumber ≠ d'.shipFromBranchNumber := by
          intro heq
          exact hnd.1 (List.mem_map.mpr ⟨d', hd', heq.symm⟩)
        simp [optCell, lookupA, hnedd]
    rw [ih (addDistribution m d) hnd.2 hfresh', hstep, List.append_assoc,
      contrib_cons]

theorem aggDists_buildCarrierMap (code : String) (hcode : code ≠ "")
    (dists : List IngramDistribution)
    (hnd : (dists.map (fun d => d.shipFromBranchNumber)).Nodup) :
    aggDists (buildCarrierMap dists) code = contrib code dists := by
  have h := aggDists_foldl_addDistribution code hcode dists [] hnd
    (by intro d _; simp [aggDists, lookupA])
  simpa [aggDists, lookupA, buildCarrierMap] using h

theorem selFold_isSome_iff (code : String) :
    ∀ (l : List IngramCarrier) (acc : Option BranchCharge),
      (l.foldl (selStep code) acc).isSome = true ↔
        acc.isSome = true ∨ ∃ c ∈ l, trimS c.carrierCode = code := by
  intro l
  induction l with
  | nil => intro acc; simp
  | cons c rest ih =>
    intro acc
    simp only [List.foldl_cons]
    rw [ih (selStep code acc c)]
    by_cases hcc : trimS c.carrierCode = code
    · have hsome : (selStep code acc c).isSome = true := by
        cases acc with
        | none => simp [selStep, hcc]
        | some v =>
          simp only [selStep, if_pos hcc]
          split <;> simp
      constructor
      · intro _
        exact Or.inr ⟨c, List.mem_cons_self c rest, hcc⟩
      · intro _
        exact Or.inl hsome
    · have hacc : selStep code acc c = acc := by simp [selStep, hcc]
      rw [hacc]
      constructor
      · rintro (h | ⟨x, hx, hxx⟩)
        · exact Or.inl h
        · exact Or.inr ⟨x, List.mem_cons_of_mem c hx, hxx⟩
      · rintro (h | ⟨x, hx, hxx⟩)
        · exact Or.inl h
        · rcases List.mem_cons.mp hx with heq | hx'
          · exact absurd (heq ▸ hxx) hcc
          · exact Or.inr ⟨x, hx', hxx⟩

theorem selectEntry_isSome_iff (code : String) (l : List IngramCarrier) :
    (selectEntry code l).isSome = true ↔ ∃ c ∈ l, trimS c.carrierCode = code := by
  rw [selectEntry, selFold_isSome_iff]
  simp

theorem filterMap_length_eq_iff {α β : Type} (f : α → Option β) :
    ∀ l : List α,
      ((l.filterMap f).length = l.length ↔ ∀ x ∈ l, (f x).isSome = true) := by
  intro l
  induction l with
  | nil => simp
  | cons a rest ih =>
    cases hf : f a with
    | none =>
      simp only [List.filterMap_cons, hf, List.length_cons]
      constructor
      · intro h
        have hle : (rest.filterMap f).length ≤ rest.length :=
          List.length_filterMap_le f rest
        omega
      · intro h
        have := h a (List.mem_cons_self a rest)
        rw [hf] at this
        simp at this
    | some b =>
      simp only [List.filterMap_cons, hf, List.length_cons,
        Nat.add_right_cancel_iff, ih]
      constructor
      · intro h x hx
        rcases List.mem_cons.mp hx with heq | hx'
        · rw [heq, hf]
          rfl
        · exact h x hx'
      · intro h x hx
        exact h x (List.mem_cons_of_mem a hx)

theorem foldl_add_charge :
    ∀ (l : List (String × BranchCharge)) (init : ℚ),
      l.foldl (fun acc p => acc + p.2.charge) init =
        init + (l.map (fun p => p.2.charge)).sum := by
  intro l
  induction l with
  | nil => intro init; simp
  | cons p rest ih =>
    intro init
    simp only [List.foldl_cons, List.map_cons, List.sum_cons]
    rw [ih]
    ring

theorem contrib_charges (code : String) :
    ∀ dists : List IngramDistribution,
      ((contrib code dists).map (fun p => p.2.charge)).sum =
        (dists.map (fun d =>
          ((selectEntry code d.carrierList).map (fun v => v.charge)).getD 0)).sum := by
  intro dists
  induction dists with
  | nil => simp [contrib]
  | cons d rest ih =>
    rw [contrib_cons]
    cases hse : selectEntry code d.carrierList <;>
      simp [optCell, hse, ih]

theorem foldl_max_contrib (code : String) :
    ∀ (dists : List IngramDistribution) (acc : ℤ), 0 ≤ acc →
      (contrib code dists).foldl (fun a p => max a p.2.daysInTransit) acc =
        (dists.map (fun d =>
          ((selectEntry code d.carrierList).map
            (fun v => v.daysInTransit)).getD 0)).foldl max acc := by
  intro dists
  induction dists with
  | nil => intro acc _; simp [contrib]
  | cons d rest ih =>
    intro acc hacc
    rw [contrib_cons]
    cases hse : selectEntry code d.carrierList with
    | none =>
      simp only [optCell, List.nil_append, List.map_cons, hse,
        Option.map_none', Option.getD_none, List.foldl_cons]
      rw [max_eq_left hacc]
      exact ih acc hacc
    | some v =>
      simp only [optCell, List.cons_append, List.nil_append, List.map_cons,
        hse, Option.map_some', Option.getD_some, List.foldl_cons]
      exact ih (max acc v.daysInTransit) (le_trans hacc (le_max_left _ _))

theorem minQ_le : ∀ (l : List ℚ) (m : ℚ), minQ l = some m → ∀ q ∈ l, m ≤ q := by
  intro l
  induction l with
  | nil => intro m h q hq; simp at hq
  | cons q0 rest ih =>
    intro m h q hq
    rw [minQ] at h
    have hm := (Option.some.inj h).symm
    rcases List.mem_cons.mp hq with heq | hq'
    · subst heq
      cases hr : minQ rest with
      | none => rw [hr] at hm; simp at hm; exact hm.le
      | some mr =>
        rw [hr] at hm
        simp only [Option.elim] at hm
        exact hm ▸ min_le_left _ _
    · cases hr : minQ rest with
      | none =>
        cases rest with
        | nil => simp at hq'
        | cons a l => simp [minQ] at hr
      | some mr =>
        rw [hr] at hm
        simp only [Option.elim] at hm
        exact hm ▸ le_trans (min_le_right _ _) (ih mr hr q hq')

theorem minQ_isSome : ∀ (l : List ℚ), l ≠ [] → (minQ l).isSome = true := by
  intro l h
  cases l with
  | nil => exact absurd rfl h
  | cons q rest => simp [minQ]

theorem selFold_charge (code : String) :
    ∀ (l : List IngramCarrier) (acc : Option BranchCharge),
      ((l.foldl (selStep code) acc).map (fun v => v.charge)) =
        (match acc with
         | none => minQ (distCharges code l)
         | some v =>
           some ((minQ (distCharges code l)).elim v.charge
             (fun m => min v.charge m))) := by
  intro l
  induction l with
  | nil =>
    intro acc
    cases acc <;> simp [distCharges, minQ]
  | cons c rest ih =>
    intro acc
    simp only [List.foldl_cons]
    by_cases hcc : trimS c.carrierCode = code
    · have hdc : distCharges code (c :: rest) =
          c.estimatedFreightCharge :: distCharges code rest := by
        simp [distCharges, hcc]
      rw [hdc]
      cases acc with
      | none =>
        have hsel : selStep code none c =
            some ⟨c.estimatedFreightCharge, c.daysInTransit⟩ := by
          simp [selStep, hcc]
        rw [hsel, ih]
        rw [minQ]
      | some v =>
        have hsel : selStep code (some v) c =
            (if c.estimatedFreightCharge < v.charge then
              some ⟨c.estimatedFreightCharge, c.daysInTransit⟩
            else some v) := by
          simp [selStep, hcc]
        rw [hsel]
        by_cases hlt : c.estimatedFreightCharge < v.charge
        · rw [if_pos hlt, ih]
          rw [minQ]
          dsimp only
          congr 1
          cases hr : minQ (distCharges code rest) with
          | none =>
            simp only [Option.elim]
            exact (min_eq_right hlt.le).symm
          | some mr =>
            simp only [Option.elim]
            have hx : min c.estimatedFreightCharge mr ≤
                c.estimatedFreightCharge := min_le_left _ _
            rw [min_eq_right (le_trans hx hlt.le)]
        · rw [if_neg hlt, ih]
          rw [minQ]
          dsimp only
          congr 1
          have hvc : v.charge ≤ c.estimatedFreightCharge := not_lt.mp hlt
          cases hr : minQ (distCharges code rest) with
          | none =>
            simp only [Option.elim]
            exact (min_eq_left hvc).symm
          | some mr =>
            simp only [Option.elim]
            rw [← min_assoc, min_eq_left hvc]
    · have hdc : distCharges code (c :: rest) = distCharges code rest := by
        simp [distCharges, hcc]
      have hsel : selStep code acc c = acc := by simp [selStep, hcc]
      rw [hsel, hdc, ih]

theorem selectEntry_charge (code : String) (l : List IngramCarrier) :
    (selectEntry code l).map (fun v => v.charge) = minQ (distCharges code l) := by
  rw [selectEntry, selFold_charge]

/-- C1 (amended): over two or more distributions with distinct branch
numbers, a carrier code appears in the output of `combineRates` exactly when
it has an entry in every distribution **and** its aggregated total charge is
positive; and each output rate's `totalCharge` is the sum over the
distributions of that carrier's per-distribution charge (the lower charge
when the code repeats within one distribution), while `maxDaysInTransit` is
the maximum (floored at 0) of the selected per-distribution transit days. -/
theorem combineRates_complete_carrier (dists : List IngramDistribution)
    (code : String) (h2 : 2 ≤ dists.length)
    (hnd : (dists.map (fun d => d.shipFromBranchNumber)).Nodup)
    (hcode : code ≠ "") :
    ((∃ r ∈ combineRates dists, r.carrierCode = code) ↔
      (∀ d ∈ dists, ∃ c ∈ d.carrierList, trimS c.carrierCode = code) ∧
        0 < (dists.map (fun d =>
          (minQ (distCharges code d.carrierList)).getD 0)).sum) ∧
    (∀ r ∈ combineRates dists, r.carrierCode = code →
      r.totalCharge = (dists.map (fun d =>
        (minQ (distCharges code d.carrierList)).getD 0)).sum ∧
      r.maxDaysInTransit = (dists.map (fun d =>
        ((selectEntry code d.carrierList).map
          (fun v => v.daysInTransit)).getD 0)).foldl max 0) := by
  have hcr := combineRates_two_or_more dists h2
  have htot : ((dists.map (·.shipFromBranchNumber)).dedup).length =
      dists.length := by
    rw [List.dedup_eq_self.mpr hnd, List.length_map]
  have hagg := aggDists_buildCarrierMap code hcode dists hnd
  have hgood := goodKeys_buildCarrierMap dists
  have hdistOf : ∀ agg : CarrierAgg,
      lookupA (buildCarrierMap dists) code = some agg →
      agg.distributions = contrib code dists := by
    intro agg hlk
    have hx : aggDists (buildCarrierMap dists) code = agg.distributions := by
      simp [aggDists, hlk]
    rw [← hx, hagg]
  have hsum : ∀ agg : CarrierAgg,
      lookupA (buildCarrierMap dists) code = some agg →
      aggTotalCharge agg =
        (dists.map (fun d =>
          (minQ (distCharges code d.carrierList)).getD 0)).sum := by
    intro agg hlk
    rw [aggTotalCharge, hdistOf agg hlk, foldl_add_charge, zero_add,
      contrib_charges]
    simp only [selectEntry_charge]
  have hmaxOf : ∀ agg : CarrierAgg,
      lookupA (buildCarrierMap dists) code = some agg →
      aggMaxDays agg =
        (dists.map (fun d =>
          ((selectEntry code d.carrierList).map
            (fun v => v.daysInTransit)).getD 0)).foldl max 0 := by
    intro agg hlk
    rw [aggMaxDays, hdistOf agg hlk, foldl_max_contrib code dists 0 le_rfl]
  have hlen : ∀ agg : CarrierAgg,
      lookupA (buildCarrierMap dists) code = some agg →
      (agg.distributions.length = dists.length ↔
        ∀ d ∈ dists, ∃ c ∈ d.carrierList, trimS c.carrierCode = code) := by
    intro agg hlk
    rw [hdistOf agg hlk, contrib]
    have hflen : dists.length = dists.length := rfl
    rw [show (dists.filterMap (fun d =>
        (selectEntry code d.carrierList).map
          (fun v => (d.shipFromBranchNumber, v)))).length = dists.length ↔
        ∀ d ∈ dists, ((selectEntry code d.carrierList).map
          (fun v => (d.shipFromBranchNumber, v))).isSome = true
      from filterMap_length_eq_iff _ dists]
    constructor
    · intro h d hd
      have := h d hd
      rw [Option.isSome_map'] at this
      exact (selectEntry_isSome_iff code d.carrierList).mp this
    · intro h d hd
      rw [Option.isSome_map']
      exact (selectEntry_isSome_iff code d.carrierList).mpr (h d hd)
  have hmemiff : ∀ r : CombinedRate,
      (r ∈ combineRates dists ∧ r.carrierCode = code) ↔
      ∃ agg : CarrierAgg, lookupA (buildCarrierMap dists) code = some agg ∧
        agg.distributions.length =
          ((dists.map (·.shipFromBranchNumber)).dedup).length ∧
        0 < aggTotalCharge agg ∧
        r = ⟨code, agg.shipVia, agg.carrierMode, aggTotalCharge agg,
          aggMaxDays agg, aggBreakdown agg, true⟩ := by
    intro r
    constructor
    · rintro ⟨hr, hrc⟩
      rw [hcr, mem_sortByCharge] at hr
      rcases List.mem_filterMap.mp hr with ⟨⟨k, agg⟩, hp, heq⟩
      unfold combinedOfAgg at heq
      by_cases hcond : agg.distributions.length =
          ((dists.map (·.shipFromBranchNumber)).dedup).length ∧
          0 < aggTotalCharge agg
      · rw [if_pos hcond] at heq
        have hre := (Option.some.inj heq).symm
        have hk : k = code := by
          rw [hre] at hrc
          exact hrc
        subst hk
        exact ⟨agg, lookupA_of_mem_nodup hgood.1 hp, hcond.1, hcond.2, hre⟩
      · rw [if_neg hcond] at heq
        exact absurd heq (by simp)
    · rintro ⟨agg, hlk, hlen', hpos, hre⟩
      constructor
      · rw [hcr, mem_sortByCharge]
        refine List.mem_filterMap.mpr ⟨(code, agg), mem_of_lookupA hlk, ?_⟩
        unfold combinedOfAgg
        rw [if_pos ⟨hlen', hpos⟩, hre]
      · rw [hre]
  constructor
  · constructor
    · rintro ⟨r, hr, hrc⟩
      rcases (hmemiff r).mp ⟨hr, hrc⟩ with ⟨agg, hlk, hlen', hpos, hre⟩
      refine ⟨?_, ?_⟩
      · exact (hlen agg hlk).mp (by rw [← htot]; exact hlen')
      · rw [← hsum agg hlk]
        exact hpos
    · rintro ⟨hall, hpos⟩
      have hcontrib_ne : contrib code dists ≠ [] := by
        cases dists with
        | nil => simp at h2
        | cons d rest =>
          rw [contrib_cons]
          cases hse : selectEntry code d.carrierList with
          | some v => simp [optCell]
          | none =>
            have hx := (selectEntry_isSome_iff code d.carrierList).mpr
              (hall d (List.mem_cons_self d rest))
            rw [hse] at hx
            simp at hx
      have hlkE : ∃ agg : CarrierAgg,
          lookupA (buildCarrierMap dists) code = some agg := by
        cases hl : lookupA (buildCarrierMap dists) code with
        | some agg => exact ⟨agg, rfl⟩
        | none =>
          exfalso
          have hx : aggDists (buildCarrierMap dists) code = [] := by
            simp [aggDists, hl]
          rw [hagg] at hx
          exact hcontrib_ne hx
      rcases hlkE with ⟨agg, hlk⟩
      have hlen' : agg.distributions.length = dists.length :=
        (hlen agg hlk).mpr hall
      have hpos' : 0 < aggTotalCharge agg := by
        rw [hsum agg hlk]
        exact hpos
      refine ⟨⟨code, agg.shipVia, agg.carrierMode, aggTotalCharge agg,
        aggMaxDays agg, aggBreakdown agg, true⟩, ?_, rfl⟩
      exact ((hmemiff _).mpr
        ⟨agg, hlk, by rw [htot]; exact hlen', hpos', rfl⟩).1
  · intro r hr hrc
    rcases (hmemiff r).mp ⟨hr, hrc⟩ with ⟨agg, hlk, hlen', hpos, hre⟩
    constructor
    · rw [hre]
      exact hsum agg hlk
    · rw [hre]
      exact hmaxOf agg hlk

theorem rate_of_mem_multi (dists : List IngramDistribution) (code : String)
    (r : CombinedRate) (h2 : 2 ≤ dists.length)
    (hr : r ∈ combineRates dists) (hrc : r.carrierCode = code) :
    ∃ agg : CarrierAgg, lookupA (buildCarrierMap dists) code = some agg ∧
      r.totalCharge = aggTotalCharge agg := by
  rw [combineRates_two_or_more dists h2, mem_sortByCharge] at hr
  rcases List.mem_filterMap.mp hr with ⟨⟨k, agg⟩, hp, heq⟩
  unfold combinedOfAgg at heq
  by_cases hcond : agg.distributions.length =
      ((dists.map (·.shipFromBranchNumber)).dedup).length ∧
      0 < aggTotalCharge agg
  · rw [if_pos hcond] at heq
    have hre := (Option.some.inj heq).symm
    have hk : k = code := by
      rw [hre] at hrc
      exact hrc
    subst hk
    refine ⟨agg, lookupA_of_mem_nodup (goodKeys_buildCarrierMap dists).1 hp, ?_⟩
    rw [hre]
  · rw [if_neg hcond] at heq
    exact absurd heq (by simp)

theorem aggTotalCharge_spec (dists : List IngramDistribution) (code : String)
    (hnd : (dists.map (fun d => d.shipFromBranchNumber)).Nodup)
    (hcode : code ≠ "") (agg : CarrierAgg)
    (hlk : lookupA (buildCarrierMap dists) code = some agg) :
    aggTotalCharge agg =
      (dists.map (fun d =>
        (minQ (distCharges code d.carrierList)).getD 0)).sum := by
  have hagg := aggDists_buildCarrierMap code hcode dists hnd
  have hx : aggDists (buildCarrierMap dists) code = agg.distributions := by
    simp [aggDists, hlk]
  have hdist : agg.distributions = contrib code dists := by
    rw [← hx, hagg]
  rw [aggTotalCharge, hdist, foldl_add_charge, zero_add, contrib_charges]
  simp only [selectEntry_charge]

/-- C2: over two or more distributions with distinct branch numbers, each
output rate's `totalCharge` takes, from every distribution, the **minimum**
of the charges that carrier code lists there (first conjunct: the total is
the sum of per-distribution minima, and the minimum is a lower bound of all
duplicate charges); concretely, duplicate `UPS` entries charging 12 and 9
in one distribution contribute 9 — together with a second distribution
charging 1, the combined rate totals 10 and carries the cheaper entry's
transit days (second conjunct). -/
theorem combineRates_duplicate_lower_charge :
    (∀ (dists : List IngramDistribution) (code : String), 2 ≤ dists.length →
      (dists.map (fun d => d.shipFromBranchNumber)).Nodup → code ≠ "" →
      ∀ r ∈ combineRates dists, r.carrierCode = code →
        r.totalCharge = (dists.map (fun d =>
          (minQ (distCharges code d.carrierList)).getD 0)).sum ∧
        ∀ d ∈ dists, ∀ q ∈ distCharges code d.carrierList,
          (minQ (distCharges code d.carrierList)).getD 0 ≤ q) ∧
      combineRates
          [⟨"A", [⟨"UPS", "UPS", "G", 12, 2⟩, ⟨"UPS", "UPS", "G", 9, 5⟩]⟩,
           ⟨"B", [⟨"UPS", "UPS", "G", 1, 1⟩]⟩] =
        [⟨"UPS", "UPS", "G", 10, 5,
          [⟨"A", 9, 5⟩, ⟨"B", 1, 1⟩], true⟩] := by
  constructor
  · intro dists code h2 hnd hcode r hr hrc
    rcases rate_of_mem_multi dists code r h2 hr hrc with ⟨agg, hlk, htc⟩
    refine ⟨htc.trans (aggTotalCharge_spec dists code hnd hcode agg hlk), ?_⟩
    intro d hd q hq
    have hne : distCharges code d.carrierList ≠ [] := by
      intro hnil
      rw [hnil] at hq
      simp at hq
    have hsome := minQ_isSome (distCharges code d.carrierList) hne
    cases hmq : minQ (distCharges code d.carrierList) with
    | none => rw [hmq] at hsome; simp at hsome
    | some m =>
      simpa using minQ_le _ m hmq q hq
  · have hbuild :
        buildCarrierMap
            [⟨"A", [⟨"UPS", "UPS", "G", 12, 2⟩, ⟨"UPS", "UPS", "G", 9, 5⟩]⟩,
             ⟨"B", [⟨"UPS", "UPS", "G", 1, 1⟩]⟩] =
          [("UPS", ⟨"UPS", "G", [("A", ⟨9, 5⟩), ("B", ⟨1, 1⟩)]⟩)] := by
      rfl
    have hagg10 :
        aggTotalCharge ⟨"UPS", "G", [("A", ⟨9, 5⟩), ("B", ⟨1, 1⟩)]⟩ = 10 := by
      norm_num [aggTotalCharge, List.foldl]
    have hmax5 :
        aggMaxDays ⟨"UPS", "G", [("A", ⟨9, 5⟩), ("B", ⟨1, 1⟩)]⟩ = 5 := by
      decide
    rw [combineRates_two_or_more _ (by norm_num), hbuild]
    simp only [List.filterMap_cons, List.filterMap_nil]
    unfold combinedOfAgg
    rw [if_pos ⟨by decide, by rw [hagg10]; norm_num⟩]
    rw [hagg10, hmax5]
    simp [sortByCharge, List.insertionSort, aggBreakdown]

/-- C1 counterexample: a carrier (`FEDX`) present in **every** distribution
of a two-distribution input, whose charges sum to 0, is excluded from the
output of `combineRates` — so "appears in the output exactly when present in
every distribution" fails in the right-to-left direction as stated. -/
theorem combineRates_complete_zero_counterexample :
    (∀ d ∈ [(⟨"X", [⟨"FEDX", "FEDX GROUND", "G", 0, 1⟩]⟩ : IngramDistribution),
        ⟨"Y", [⟨"FEDX", "FEDX GROUND", "G", 0, 4⟩]⟩],
      ∃ c ∈ d.carrierList, trimS c.carrierCode = "FEDX") ∧
      ¬ ∃ r ∈ combineRates
          [(⟨"X", [⟨"FEDX", "FEDX GROUND", "G", 0, 1⟩]⟩ : IngramDistribution),
            ⟨"Y", [⟨"FEDX", "FEDX GROUND", "G", 0, 4⟩]⟩],
        r.carrierCode = "FEDX" := by
  constructor
  · decide
  · have hbuild :
        buildCarrierMap
            [(⟨"X", [⟨"FEDX", "FEDX GROUND", "G", 0, 1⟩]⟩ : IngramDistribution),
              ⟨"Y", [⟨"FEDX", "FEDX GROUND", "G", 0, 4⟩]⟩] =
          [("FEDX", ⟨"FEDX GROUND", "G", [("X", ⟨0, 1⟩), ("Y", ⟨0, 4⟩)]⟩)] := by
      rfl
    have hagg0 :
        aggTotalCharge ⟨"FEDX GROUND", "G", [("X", ⟨0, 1⟩), ("Y", ⟨0, 4⟩)]⟩ =
          0 := by
      norm_num [aggTotalCharge, List.foldl]
    have heq : combineRates
        [(⟨"X", [⟨"FEDX", "FEDX GROUND", "G", 0, 1⟩]⟩ : IngramDistribution),
          ⟨"Y", [⟨"FEDX", "FEDX GROUND", "G", 0, 4⟩]⟩] = [] := by
      rw [combineRates_two_or_more _ (by norm_num), hbuild]
      simp only [List.filterMap_cons, List.filterMap_nil]
      unfold combinedOfAgg
      rw [if_neg]
      · simp [sortByCharge, List.insertionSort]
      · rintro ⟨-, hpos⟩
        rw [hagg0] at hpos
        exact lt_irrefl 0 hpos
    rw [heq]
    simp

theorem combineRates_complete_carrier_witness :
    (2 ≤ ([(⟨"A", [⟨"UPS", "UPS GROUND", "G", 10, 2⟩]⟩ : IngramDistribution),
          ⟨"B", [⟨"UPS", "UPS GROUND", "G", 8, 3⟩]⟩]).length ∧
        (([(⟨"A", [⟨"UPS", "UPS GROUND", "G", 10, 2⟩]⟩ : IngramDistribution),
            ⟨"B", [⟨"UPS", "UPS GROUND", "G", 8, 3⟩]⟩]).map
          (fun d => d.shipFromBranchNumber)).Nodup ∧
        ("UPS" : String) ≠ "") ∧
      (((∃ r ∈ combineRates
            [(⟨"A", [⟨"UPS", "UPS GROUND", "G", 10, 2⟩]⟩ : IngramDistribution),
              ⟨"B", [⟨"UPS", "UPS GROUND", "G", 8, 3⟩]⟩],
          r.carrierCode = "UPS") ↔
        (∀ d ∈ [(⟨"A", [⟨"UPS", "UPS GROUND", "G", 10, 2⟩]⟩ : IngramDistribution),
            ⟨"B", [⟨"UPS", "UPS GROUND", "G", 8, 3⟩]⟩],
          ∃ c ∈ d.carrierList, trimS c.carrierCode = "UPS") ∧
          0 < (([(⟨"A", [⟨"UPS", "UPS GROUND", "G", 10, 2⟩]⟩ : IngramDistribution),
              ⟨"B", [⟨"UPS", "UPS GROUND", "G", 8, 3⟩]⟩]).map
            (fun d => (minQ (distCharges "UPS" d.carrierList)).getD 0)).sum) ∧
      (∀ r ∈ combineRates
          [(⟨"A", [⟨"UPS", "UPS GROUND", "G", 10, 2⟩]⟩ : IngramDistribution),
            ⟨"B", [⟨"UPS", "UPS GROUND", "G", 8, 3⟩]⟩],
        r.carrierCode = "UPS" →
        r.totalCharge =
          (([(⟨"A", [⟨"UPS", "UPS GROUND", "G", 10, 2⟩]⟩ : IngramDistribution),
              ⟨"B", [⟨"UPS", "UPS GROUND", "G", 8, 3⟩]⟩]).map
            (fun d => (minQ (distCharges "UPS" d.carrierList)).getD 0)).sum ∧
        r.maxDaysInTransit =
          (([(⟨"A", [⟨"UPS", "UPS GROUND", "G", 10, 2⟩]⟩ : IngramDistribution),
              ⟨"B", [⟨"UPS", "UPS GROUND", "G", 8, 3⟩]⟩]).map
            (fun d => ((selectEntry "UPS" d.carrierList).map
              (fun v => v.daysInTransit)).getD 0)).foldl max 0)) :=
  ⟨⟨by decide, by decide, by decide⟩,
    combineRates_complete_carrier
      [(⟨"A", [⟨"UPS", "UPS GROUND", "G", 10, 2⟩]⟩ : IngramDistribution),
        ⟨"B", [⟨"UPS", "UPS GROUND", "G", 8, 3⟩]⟩] "UPS"
      (by decide) (by decide) (by decide)⟩

theorem combineRates_duplicate_lower_charge_witness :
    (2 ≤ ([(⟨"A", [⟨"UPS", "UPS", "G", 12, 2⟩, ⟨"UPS", "UPS", "G", 9, 5⟩]⟩ :
            IngramDistribution),
          ⟨"B", [⟨"UPS", "UPS", "G", 1, 1⟩]⟩]).length ∧
        (([(⟨"A", [⟨"UPS", "UPS", "G", 12, 2⟩, ⟨"UPS", "UPS", "G", 9, 5⟩]⟩ :
              IngramDistribution),
            ⟨"B", [⟨"UPS", "UPS", "G", 1, 1⟩]⟩]).map
          (fun d => d.shipFromBranchNumber)).Nodup ∧
        ("UPS" : String) ≠ "") ∧
      (∀ r ∈ combineRates
          [(⟨"A", [⟨"UPS", "UPS", "G", 12, 2⟩, ⟨"UPS", "UPS", "G", 9, 5⟩]⟩ :
              IngramDistribution),
            ⟨"B", [⟨"UPS", "UPS", "G", 1, 1⟩]⟩],
        r.carrierCode = "UPS" →
        r.totalCharge =
          (([(⟨"A", [⟨"UPS", "UPS", "G", 12, 2⟩, ⟨"UPS", "UPS", "G", 9, 5⟩]⟩ :
                IngramDistribution),
              ⟨"B", [⟨"UPS", "UPS", "G", 1, 1⟩]⟩]).map
            (fun d => (minQ (distCharges "UPS" d.carrierList)).getD 0)).sum ∧
        ∀ d ∈ [(⟨"A", [⟨"UPS", "UPS", "G", 12, 2⟩, ⟨"UPS", "UPS", "G", 9, 5⟩]⟩ :
              IngramDistribution),
            ⟨"B", [⟨"UPS", "UPS", "G", 1, 1⟩]⟩],
          ∀ q ∈ distCharges "UPS" d.carrierList,
            (minQ (distCharges "UPS" d.carrierList)).getD 0 ≤ q) :=
  ⟨⟨by decide, by decide, by decide⟩,
    combineRates_duplicate_lower_charge.1
      [(⟨"A", [⟨"UPS", "UPS", "G", 12, 2⟩, ⟨"UPS", "UPS", "G", 9, 5⟩]⟩ :
          IngramDistribution),
        ⟨"B", [⟨"UPS", "UPS", "G", 1, 1⟩]⟩] "UPS"
      (by decide) (by decide) (by decide)⟩
